import Mathlib

/-!
# Exchange chaincode (`asset-channel-chaincode/off-transcation.go`)

A shallow embedding of the `Exchange` contract: orders (`Transaction`) are
kept in the ledger's world state under string keys, created by
`CreateTransaction`, paired and settled by `ExecuteTransaction`, which
selects the partner with the rich query of `FindMatchingTransaction`.

Modelling conventions.

* A Go `string` is a byte sequence.  An argument of the contract is a `GoString`: the
  sequence of its runes and of its bytes that are not part of well-formed UTF-8.
  `json.Marshal` writes U+FFFD for each such byte, so a stored record, which is always
  read back from JSON, has fields of type `String` (`GoString.toValidUTF8`).
* The world state is a finite map from keys to decoded `Transaction` records
  (`Store`); the stored bytes are identified with the record they encode.
* The ledger stub (`ctx.GetStub()`) is not part of the sources.  Its three
  calls `GetState`, `PutState`, `GetQueryResult` are modelled on the store,
  and each may be rejected by the ledger: `Faults` says which calls return
  an error.  A rejected call changes nothing.
* `FindMatchingTransaction` splices `id`, `currency` and `exchangeTo` into the query
  text without escaping.  The query is modelled by what its text means: each spliced
  string is read as the body of a JSON string (`jsonString`, with the escapes and
  replacements of Go's `encoding/json`), and the selector compares the decoded values
  with the stored fields.  The iterator yields the selected records in the order of
  `Store.entries`.  When a spliced string is not the body of a JSON string (a bare
  quote, a control character, a broken escape) the text is not the query above; the
  model then selects no record, and the theorems on matching assume strings free of
  these characters (`GoString.plain`).
* Go `int` fields are `Int`: the contract does no arithmetic on them.
* An invocation returns an `Outcome`: the returned error (if any) and the
  world state with the writes issued by the invocation applied.
-/

namespace Exchange

/-- The order record, `type Transaction struct`. -/
structure Transaction where
  ID : String
  Currency : String
  Amount : Int
  ExchangeTo : String
  Rate : Int
  IsExecuted : Bool
deriving DecidableEq, Repr

/-- The errors of the contract, by the message built with `fmt.Errorf`;
`StoreFailure` stands for an error handed back by the ledger stub. -/
inductive Error where
  | AlreadyExists
  | NotFound
  | AlreadySettled
  | NoMatch
  | StoreFailure
deriving DecidableEq, Repr

deriving instance DecidableEq for Except

/-! ## Go strings and JSON string bodies -/

/-- One element of a Go string: a rune held in well-formed UTF-8, or a byte that
belongs to no well-formed UTF-8 sequence. -/
inductive GoChar where
  | rune (c : Char)
  | byte (b : Nat)
deriving DecidableEq, Repr

/-- A Go string, split into runes and stray bytes the way Go's `range` loop splits it. -/
abbrev GoString := List GoChar

/-- The Go string holding the text `s`. -/
def GoString.ofString (s : String) : GoString := s.data.map GoChar.rune

instance : Coe String GoString := ⟨GoString.ofString⟩

/-- The replacement character U+FFFD. -/
def replacementChar : Char := Char.ofNat 65533

/-- The text that `json.Unmarshal` reads back from the `json.Marshal` of a Go string:
every stray byte has become U+FFFD. -/
def GoString.toValidUTF8 (g : GoString) : String :=
  ⟨g.map fun x => match x with
    | .rune c => c
    | .byte _ => replacementChar⟩

/-- The Go string is well-formed UTF-8. -/
def GoString.valid (g : GoString) : Bool :=
  g.all fun x => match x with
    | .rune _ => true
    | .byte _ => false

/-- A rune that stands for itself inside a JSON string: no double quote (34), no
backslash (92), no control character (below 32). -/
def plainChar (c : Char) : Bool :=
  c.toNat != 34 && c.toNat != 92 && decide (32 ≤ c.toNat)

/-- A Go string that is well-formed UTF-8 and holds only such runes. -/
def GoString.plain (g : GoString) : Bool :=
  g.all fun x => match x with
    | .rune c => plainChar c
    | .byte _ => false

/-- Where the reader of a JSON string body stands: between characters, after a
backslash, or inside `\u` with `n` hexadecimal digits of value `acc` read. -/
inductive Mode where
  | normal
  | esc
  | hex (n acc : Nat)

/-- Value of a hexadecimal digit. -/
def hexDigit (c : Char) : Option Nat :=
  if 48 ≤ c.toNat ∧ c.toNat ≤ 57 then some (c.toNat - 48)
  else if 97 ≤ c.toNat ∧ c.toNat ≤ 102 then some (c.toNat - 87)
  else if 65 ≤ c.toNat ∧ c.toNat ≤ 70 then some (c.toNat - 55)
  else none

/-- The character named by a one-letter escape: quote, backslash, slash, `b`, `f`, `n`,
`r`, `t`. -/
def simpleEscape (c : Char) : Option Char :=
  if c.toNat = 34 then some (Char.ofNat 34)
  else if c.toNat = 92 then some (Char.ofNat 92)
  else if c.toNat = 47 then some (Char.ofNat 47)
  else if c.toNat = 98 then some (Char.ofNat 8)
  else if c.toNat = 102 then some (Char.ofNat 12)
  else if c.toNat = 110 then some (Char.ofNat 10)
  else if c.toNat = 114 then some (Char.ofNat 13)
  else if c.toNat = 116 then some (Char.ofNat 9)
  else none

/-- What a pending high surrogate that found no low surrogate decodes to. -/
def pendingOut (p : Option Nat) : List Char :=
  match p with
  | some _ => [replacementChar]
  | none => []

/-- Decoding of the body of a JSON string as by Go's `encoding/json`; `p` is a high
surrogate read from a `\u` escape and still waiting for its low surrogate.  `none` when
the body holds a bare quote or control character or a broken escape, or ends inside
an escape. -/
def unquote : Mode → Option Nat → List GoChar → Option (List Char)
  | .normal, p, [] => some (pendingOut p)
  | .esc, _, [] => none
  | .hex _ _, _, [] => none
  | .normal, p, .byte _ :: rest =>
    (unquote .normal none rest).map fun out => pendingOut p ++ replacementChar :: out
  | .normal, p, .rune c :: rest =>
    if c.toNat = 34 then none
    else if c.toNat = 92 then unquote .esc p rest
    else if c.toNat < 32 then none
    else (unquote .normal none rest).map fun out => pendingOut p ++ c :: out
  | .esc, _, .byte _ :: _ => none
  | .esc, p, .rune c :: rest =>
    if c.toNat = 117 then unquote (.hex 0 0) p rest
    else
      match simpleEscape c with
      | none => none
      | some d => (unquote .normal none rest).map fun out => pendingOut p ++ d :: out
  | .hex _ _, _, .byte _ :: _ => none
  | .hex n acc, p, .rune c :: rest =>
    match hexDigit c with
    | none => none
    | some d =>
      if n < 3 then unquote (.hex (n + 1) (acc * 16 + d)) p rest
      else
        let v := acc * 16 + d
        match p with
        | some h =>
          if 56320 ≤ v ∧ v ≤ 57343 then
            (unquote .normal none rest).map fun out =>
              Char.ofNat (65536 + (h - 55296) * 1024 + (v - 56320)) :: out
          else if 55296 ≤ v ∧ v ≤ 56319 then
            (unquote .normal (some v) rest).map fun out => replacementChar :: out
          else (unquote .normal none rest).map fun out => replacementChar :: Char.ofNat v :: out
        | none =>
          if 55296 ≤ v ∧ v ≤ 56319 then unquote .normal (some v) rest
          else if 56320 ≤ v ∧ v ≤ 57343 then
            (unquote .normal none rest).map fun out => replacementChar :: out
          else (unquote .normal none rest).map fun out => Char.ofNat v :: out

/-- The value of the JSON string `"g"` obtained by writing `g` between quotes, when `g`
is the body of a JSON string. -/
def jsonString (g : GoString) : Option String := (unquote .normal none g).map String.mk

/-! ## The ledger -/

/-- Value bound to key `k` in an association list (first binding). -/
def lookup (k : GoString) : List (GoString × Transaction) → Option Transaction
  | [] => none
  | (k', v) :: rest => if k' = k then some v else lookup k rest

/-- Bind `k` to `v`: overwrite the binding of `k` in place, or add one at the end. -/
def upsert (k : GoString) (v : Transaction) :
    List (GoString × Transaction) → List (GoString × Transaction)
  | [] => [(k, v)]
  | (k', v') :: rest => if k' = k then (k, v) :: rest else (k', v') :: upsert k v rest

theorem upsert_keys (k : GoString) (v : Transaction) (l : List (GoString × Transaction)) :
    (upsert k v l).map Prod.fst =
      if k ∈ l.map Prod.fst then l.map Prod.fst else l.map Prod.fst ++ [k] := by
  induction l with
  | nil => simp [upsert]
  | cons p rest ih =>
    obtain ⟨k', v'⟩ := p
    by_cases h : k' = k
    · simp [upsert, h]
    · have h' : ¬ k = k' := fun e => h e.symm
      simp only [upsert, h, if_false, List.map_cons, List.mem_cons, h', false_or, ih]
      split <;> simp

theorem upsert_nodup (k : GoString) (v : Transaction) (l : List (GoString × Transaction))
    (h : (l.map Prod.fst).Nodup) : ((upsert k v l).map Prod.fst).Nodup := by
  rw [upsert_keys]
  split
  · exact h
  · rename_i hk
    exact List.Nodup.append h (List.nodup_singleton k) (by simpa using hk)

/-- The world state of the chaincode namespace: each key is bound at most once. -/
structure Store where
  entries : List (GoString × Transaction)
  nodup : (entries.map Prod.fst).Nodup

/-- The empty ledger, as left by `InitLedger`. -/
def Store.empty : Store := ⟨[], List.nodup_nil⟩

/-- The record bound to key `k`, if any. -/
def Store.get (s : Store) (k : GoString) : Option Transaction := lookup k s.entries

/-- The store with key `k` bound to `v`. -/
def Store.put (s : Store) (k : GoString) (v : Transaction) : Store :=
  ⟨upsert k v s.entries, upsert_nodup k v s.entries s.nodup⟩

/-- Every record is stored under the key given by its own `ID` field. -/
def Store.KeyIdConsistent (s : Store) : Prop := ∀ p ∈ s.entries, (↑p.2.ID : GoString) = p.1

instance (s : Store) : Decidable s.KeyIdConsistent := by
  unfold Store.KeyIdConsistent
  infer_instance

/-- Which calls of the ledger stub are rejected: `GetState` and `PutState`
by key, and `GetQueryResult`. -/
structure Faults where
  getState : GoString → Bool
  putState : GoString → Bool
  getQueryResult : Bool

/-- A ledger that rejects no call. -/
def noFaults : Faults := ⟨fun _ => false, fun _ => false, false⟩

/-- The stub call `GetState(key)`: the stored value, `none` for Go `nil`. -/
def GetState (f : Faults) (s : Store) (key : GoString) : Except Error (Option Transaction) :=
  if f.getState key then .error .StoreFailure else .ok (s.get key)

/-- The stub call `PutState(key, value)`. -/
def PutState (f : Faults) (s : Store) (key : GoString) (value : Transaction) :
    Except Error Store :=
  if f.putState key then .error .StoreFailure else .ok (s.put key value)

/-- The meaning of the query text built by `FindMatchingTransaction`,
`$and [id $ne "<id>", currency = "<currency>", exchangeTo = "<exchangeTo>", rate = <rate>,
isExecuted = false]`, the three strings spliced in as they are: the stored record's
fields are compared with the values that the spliced JSON strings decode to.  When one
of the three is not the body of a JSON string no record is selected (see the
conventions above). -/
def selector (id currency exchangeTo : GoString) (rate : Int) (t : Transaction) : Bool :=
  match jsonString id, jsonString currency, jsonString exchangeTo with
  | some idValue, some currencyValue, some exchangeToValue =>
    t.ID != idValue && t.Currency == currencyValue && t.ExchangeTo == exchangeToValue
      && t.Rate == rate && t.IsExecuted == false
  | _, _, _ => false

/-- The stub call `GetQueryResult(query)`: the records selected, in iteration order. -/
def GetQueryResult (f : Faults) (s : Store) (sel : Transaction → Bool) :
    Except Error (List Transaction) :=
  if f.getQueryResult then .error .StoreFailure
  else .ok ((s.entries.map Prod.snd).filter sel)

/-- Result of an invocation that may write: the returned error and the world
state with the writes issued by the invocation applied. -/
structure Outcome where
  store : Store
  err : Option Error

/-- `Exchange.TransactionExists`. -/
def TransactionExists (f : Faults) (s : Store) (id : GoString) : Except Error Bool :=
  match GetState f s id with
  | .error e => .error e
  | .ok txJSON => .ok txJSON.isSome

/-- `Exchange.ReadTransaction`. -/
def ReadTransaction (f : Faults) (s : Store) (id : GoString) : Except Error Transaction :=
  match GetState f s id with
  | .error _ => .error .StoreFailure
  | .ok none => .error .NotFound
  | .ok (some transaction) => .ok transaction

/-- `Exchange.FindMatchingTransaction`: the first record the query yields, or
`none` when it yields nothing. -/
def FindMatchingTransaction (f : Faults) (s : Store) (id currency exchangeTo : GoString)
    (rate : Int) : Except Error (Option Transaction) :=
  match GetQueryResult f s (selector id currency exchangeTo rate) with
  | .error e => .error e
  | .ok [] => .ok none
  | .ok (tx :: _) => .ok (some tx)

/-- The `Transaction` value built in memory by `CreateTransaction`, from the arguments
as they are. -/
structure GoTransaction where
  ID : GoString
  Currency : GoString
  Amount : Int
  ExchangeTo : GoString
  Rate : Int
  IsExecuted : Bool

/-- The record encoded by `json.Marshal(tx)`, as `json.Unmarshal` reads it back. -/
def Marshal (tx : GoTransaction) : Transaction :=
  { ID := tx.ID.toValidUTF8, Currency := tx.Currency.toValidUTF8, Amount := tx.Amount,
    ExchangeTo := tx.ExchangeTo.toValidUTF8, Rate := tx.Rate, IsExecuted := tx.IsExecuted }

/-- `Exchange.CreateTransaction`. -/
def CreateTransaction (f : Faults) (s : Store) (id currency : GoString) (amount : Int)
    (exchangeTo : GoString) (rate : Int) : Outcome :=
  match TransactionExists f s id with
  | .error e => ⟨s, some e⟩
  | .ok true => ⟨s, some .AlreadyExists⟩
  | .ok false =>
    let tx : GoTransaction :=
      { ID := id, Currency := currency, Amount := amount, ExchangeTo := exchangeTo,
        Rate := rate, IsExecuted := false }
    let txJSON := Marshal tx
    match PutState f s tx.ID txJSON with
    | .error e => ⟨s, some e⟩
    | .ok s₁ => ⟨s₁, none⟩

/-- `Exchange.ExecuteTransaction`. -/
def ExecuteTransaction (f : Faults) (s : Store) (id : GoString) : Outcome :=
  match ReadTransaction f s id with
  | .error e => ⟨s, some e⟩
  | .ok tx =>
    if tx.IsExecuted then ⟨s, some .AlreadySettled⟩
    else
      match FindMatchingTransaction f s id tx.Currency tx.ExchangeTo tx.Rate with
      | .error e => ⟨s, some e⟩
      | .ok none => ⟨s, some .NoMatch⟩
      | .ok (some matchingTx) =>
        let tx₁ : Transaction := { tx with IsExecuted := true }
        let matchingTx₁ : Transaction := { matchingTx with IsExecuted := true }
        match PutState f s tx₁.ID tx₁ with
        | .error e => ⟨s, some e⟩
        | .ok s₁ =>
          match PutState f s₁ matchingTx₁.ID matchingTx₁ with
          | .error e => ⟨s₁, some e⟩
          | .ok s₂ => ⟨s₂, none⟩

/-- `Exchange.UpdateTransaction`. -/
def UpdateTransaction (f : Faults) (s : Store) (id : GoString) (isExecuted : Bool) : Outcome :=
  match ReadTransaction f s id with
  | .error e => ⟨s, some e⟩
  | .ok transaction =>
    let transaction₁ : Transaction := { transaction with IsExecuted := isExecuted }
    match PutState f s id transaction₁ with
    | .error _ => ⟨s, some .StoreFailure⟩
    | .ok s₁ => ⟨s₁, none⟩

/-! ## Sample ledgers -/

/-- Two pending orders offering USD for CNY at rate 7. -/
def sameDirectionBook : Store :=
  ⟨[("tx1", ⟨"tx1", "USD", 100, "CNY", 7, false⟩),
    ("tx2", ⟨"tx2", "USD", 700, "CNY", 7, false⟩)], by decide⟩

/-- The pending order `tx1` (USD for CNY) and its mirror `tx2` (CNY for USD), rate 7. -/
def mirroredBook : Store :=
  ⟨[("tx1", ⟨"tx1", "USD", 100, "CNY", 7, false⟩),
    ("tx2", ⟨"tx2", "CNY", 700, "USD", 7, false⟩)], by decide⟩

/-- A ledger whose key `k1` holds a record whose `ID` field is `x`. -/
def crookedBook : Store :=
  ⟨[("k1", ⟨"x", "USD", 100, "CNY", 7, false⟩),
    ("k2", ⟨"k2", "USD", 5, "CNY", 7, false⟩)], by decide⟩

/-- The ledger after `CreateTransaction` of order `A` and then of order `B` on the empty
ledger, no call being rejected (the `IsExecuted` fields of `A`, `B` are not inputs). -/
def createTwo (A B : Transaction) : Store :=
  (CreateTransaction noFaults
    (CreateTransaction noFaults Store.empty A.ID A.Currency A.Amount A.ExchangeTo A.Rate).store
    B.ID B.Currency B.Amount B.ExchangeTo B.Rate).store

/-- The order `tx1` already settled, next to two pending orders with the same currency
pair and rate (`tx2`, `tx5`) and a pending mirror order (`tx4`). -/
def settledBook : Store :=
  ⟨[("tx1", ⟨"tx1", "USD", 100, "CNY", 7, true⟩),
    ("tx2", ⟨"tx2", "USD", 700, "CNY", 7, false⟩),
    ("tx4", ⟨"tx4", "CNY", 700, "USD", 7, false⟩),
    ("tx5", ⟨"tx5", "USD", 30, "CNY", 7, false⟩)], by decide⟩

/-- The ledger after creating the single order `tx3 = (USD, 50, EUR, 9)`. -/
def loneBook : Store :=
  (CreateTransaction noFaults Store.empty "tx3" "USD" 50 "EUR" 9).store

/-- The Go string holding one backslash. -/
def backslash : GoString := [.rune (Char.ofNat 92)]

/-- The id written `tx`, backslash, `u0031`; as the body of a JSON string it reads `tx1`. -/
def escapedTx1 : GoString := GoString.ofString "tx" ++ backslash ++ GoString.ofString "u0031"

/-- The currency written backslash, `u0055SD`; as the body of a JSON string it reads
`USD`. -/
def escapedUSD : GoString := backslash ++ GoString.ofString "u0055SD"

/-- The id `a`, stray byte 255, `b`: not well-formed UTF-8. -/
def brokenId : GoString := GoString.ofString "a" ++ [.byte 255] ++ GoString.ofString "b"

/-- The ledger after creating the single order `escapedTx1`. -/
def selfMatchBook : Store :=
  (CreateTransaction noFaults Store.empty escapedTx1 "USD" 100 "CNY" 7).store

/-- The ledger after creating `tx1`, which offers the currency `escapedUSD` for CNY, and
`tx2`, which offers USD for CNY. -/
def escapedBook : Store :=
  (CreateTransaction noFaults
    (CreateTransaction noFaults Store.empty "tx1" escapedUSD 100 "CNY" 7).store
    "tx2" "USD" 700 "CNY" 7).store

/-- The ledger after `CreateTransaction` of order `A` and then of order `B` on the empty
ledger, the ledger behaving as `f` says. -/
def createBoth (f : Faults) (A B : Transaction) : Store :=
  (CreateTransaction f
    (CreateTransaction f Store.empty A.ID A.Currency A.Amount A.ExchangeTo A.Rate).store
    B.ID B.Currency B.Amount B.ExchangeTo B.Rate).store

/-- The ledger answers the query and rejects neither the read nor the write of any of
the keys `ks`. -/
def Faults.quietOn (f : Faults) (ks : List GoString) : Prop :=
  f.getQueryResult = false ∧ ∀ k ∈ ks, f.getState k = false ∧ f.putState k = false

/-- The record's id, currency and exchange currency are well-formed UTF-8 without
double quote, backslash or control character. -/
def Transaction.plain (t : Transaction) : Bool :=
  (↑t.ID : GoString).plain && (↑t.Currency : GoString).plain && (↑t.ExchangeTo : GoString).plain

/-! ## Sequences of invocations -/

/-- An invocation of `CreateTransaction` or of `ExecuteTransaction`. -/
inductive Call where
  | create (id currency : GoString) (amount : Int) (exchangeTo : GoString) (rate : Int)
  | execute (id : GoString)

/-- The outcome of one invocation on store `s`, the ledger behaving as `f` says. -/
def Call.apply (f : Faults) (s : Store) : Call → Outcome
  | .create id currency amount exchangeTo rate =>
    CreateTransaction f s id currency amount exchangeTo rate
  | .execute id => ExecuteTransaction f s id

/-- The ids of the orders that take part in the invocation when it is a successful
`ExecuteTransaction(id)`: the target `id` and the `ID` of the match selected for it. -/
def Call.settles (f : Faults) (s : Store) : Call → List GoString
  | .create _ _ _ _ _ => []
  | .execute id =>
    if (ExecuteTransaction f s id).err = none then
      match ReadTransaction f s id with
      | .error _ => []
      | .ok tx =>
        match FindMatchingTransaction f s id tx.Currency tx.ExchangeTo tx.Rate with
        | .ok (some matchingTx) => [id, matchingTx.ID]
        | _ => []
    else []

/-- The call's string arguments are well-formed UTF-8 without double quote, backslash
or control character. -/
def Call.plain : Call → Bool
  | .create id currency _ exchangeTo _ => id.plain && currency.plain && exchangeTo.plain
  | .execute id => id.plain

/-- The same world state with its keys in the opposite iteration order. -/
def Store.reverse (s : Store) : Store :=
  ⟨s.entries.reverse, by rw [List.map_reverse, List.nodup_reverse]; exact s.nodup⟩

/-- Every record of the store holds plain strings. -/
def Store.Plain (s : Store) : Prop := ∀ p ∈ s.entries, p.2.plain = true

/-- The ids taking part in successful executions along a sequence of invocations started
on store `s`, in order.  Each invocation comes with the behaviour of the ledger for it:
the iteration order `order` in which the ledger presents the world state to the query
(`order s` is to hold the bindings of `s`), and the calls it rejects. -/
def history (s : Store) : List ((Store → Store) × Faults × Call) → List GoString
  | [] => []
  | (order, f, c) :: rest =>
    c.settles f (order s) ++ history (c.apply f (order s)).store rest

/-- Orders `tx1`, `tx2`, `tx3` (USD for CNY at rate 7) are created; `tx1` is executed with
the store iterated backwards (matched with `tx3`); executing `tx3` and `tx1` then fails,
as does executing `tx2`, for which no pending order is left; a fourth order `tx4` is
created and `tx2` is executed once more (matched with `tx4`). -/
def sampleCalls : List ((Store → Store) × Faults × Call) :=
  [(fun s => s, noFaults, .create "tx1" "USD" 100 "CNY" 7),
   (fun s => s, noFaults, .create "tx2" "USD" 700 "CNY" 7),
   (fun s => s, noFaults, .create "tx3" "USD" 5 "CNY" 7),
   (Store.reverse, noFaults, .execute "tx1"),
   (fun s => s, noFaults, .execute "tx3"),
   (fun s => s, noFaults, .execute "tx1"),
   (fun s => s, noFaults, .execute "tx2"),
   (fun s => s, noFaults, .create "tx4" "USD" 1 "CNY" 7),
   (Store.reverse, noFaults, .execute "tx2")]

/-- The order `brokenId` and the orders `tx2`, `tx3` (all USD for CNY at rate 7) are
created on a ledger that rejects no call, and `brokenId` is executed twice. -/
def brokenCalls : List ((Store → Store) × Faults × Call) :=
  [(fun s => s, noFaults, .create brokenId "USD" 100 "CNY" 7),
   (fun s => s, noFaults, .create "tx2" "USD" 700 "CNY" 7),
   (fun s => s, noFaults, .create "tx3" "USD" 5 "CNY" 7),
   (fun s => s, noFaults, .execute brokenId),
   (fun s => s, noFaults, .execute brokenId)]

/-- The store reached by `brokenCalls` before the two executions. -/
def brokenBook : Store :=
  (CreateTransaction noFaults
    (CreateTransaction noFaults
      (CreateTransaction noFaults Store.empty brokenId "USD" 100 "CNY" 7).store
      "tx2" "USD" 700 "CNY" 7).store
    "tx3" "USD" 5 "CNY" 7).store

end Exchange

/-!
# Token chaincode (`asset-channel-chaincode/mint-burn.go`)

`Mint` binds the key `token:<owner>` to the record `(owner, amount)`; `Burn` reduces the
balance stored for `owner` and then mints the burnt amount to one fixed account.

* The world state maps keys to decoded `Token` records.  The chaincode issues no query,
  so a state is given by an association list read through its first binding of a key.
* `json.Unmarshal` of the `nil` value that `GetState` returns for an unbound key fails.
* Go `int` is taken 64 bits wide: `token.Amount -= amount` wraps around (`wrapInt`).
* The ledger stub is modelled as for the exchange chaincode, with `Exchange.Faults`.
-/

namespace TokenChaincode

/-- The token record, `type Token struct`. -/
structure Token where
  Owner : String
  Amount : Int
deriving DecidableEq, Repr

/-- The errors of the chaincode, by the message built with `fmt.Errorf`. -/
inductive Error where
  | ReadFailure
  | UnmarshalFailure
  | InsufficientBalance
  | PutFailure
  | MintFailure
deriving DecidableEq, Repr

/-- The world state of the token chaincode. -/
abbrev TokenStore := List (String × Token)

/-- The record bound to key `k`, if any. -/
def TokenStore.get : TokenStore → String → Option Token
  | [], _ => none
  | (k', v) :: rest, k => if k' = k then some v else TokenStore.get rest k

/-- The store with key `k` bound to `v`. -/
def TokenStore.put : TokenStore → String → Token → TokenStore
  | [], k, v => [(k, v)]
  | (k', v') :: rest, k, v =>
    if k' = k then (k, v) :: rest else (k', v') :: TokenStore.put rest k v

/-- A Go `int` result: the value reduced to the 64-bit two's complement range. -/
def wrapInt (x : Int) : Int :=
  (x + 9223372036854775808) % 18446744073709551616 - 9223372036854775808

/-- The key of an account, `fmt.Sprintf("token:%s", owner)`. -/
def tokenKey (owner : String) : String := "token:" ++ owner

/-- The fixed account that `Burn` mints to. -/
def recipient : String := "另一个账户的ID"

/-- The stub call `GetState(key)`: the stored value, `none` for Go `nil`. -/
def GetState (f : Exchange.Faults) (s : TokenStore) (key : String) :
    Except Error (Option Token) :=
  if f.getState key then .error .ReadFailure else .ok (s.get key)

/-- The stub call `PutState(key, value)`. -/
def PutState (f : Exchange.Faults) (s : TokenStore) (key : String) (value : Token) :
    Except Error TokenStore :=
  if f.putState key then .error .PutFailure else .ok (s.put key value)

/-- Result of an invocation: the returned error and the world state with the writes
issued by the invocation applied. -/
structure Outcome where
  store : TokenStore
  err : Option Error
deriving DecidableEq

/-- `TokenChaincode.Mint`. -/
def Mint (f : Exchange.Faults) (s : TokenStore) (owner : String) (amount : Int) : Outcome :=
  let token : Token := { Owner := owner, Amount := amount }
  match PutState f s (tokenKey owner) token with
  | .error _ => ⟨s, some .PutFailure⟩
  | .ok s₁ => ⟨s₁, none⟩

/-- `TokenChaincode.Burn`. -/
def Burn (f : Exchange.Faults) (s : TokenStore) (owner : String) (amount : Int) : Outcome :=
  match GetState f s (tokenKey owner) with
  | .error _ => ⟨s, some .ReadFailure⟩
  | .ok none => ⟨s, some .UnmarshalFailure⟩
  | .ok (some token) =>
    if token.Amount < amount then ⟨s, some .InsufficientBalance⟩
    else
      let token₁ : Token := { token with Amount := wrapInt (token.Amount - amount) }
      match PutState f s (tokenKey owner) token₁ with
      | .error _ => ⟨s, some .PutFailure⟩
      | .ok s₁ =>
        match Mint f s₁ recipient amount with
        | ⟨s₂, some _⟩ => ⟨s₂, some .MintFailure⟩
        | ⟨s₂, none⟩ => ⟨s₂, none⟩

/-! ## Sample token ledgers -/

/-- Alice holds 30 tokens, the fixed recipient account 50, Bob 7. -/
def sampleTokens : TokenStore :=
  [(tokenKey "alice", ⟨"alice", 30⟩), (tokenKey recipient, ⟨recipient, 50⟩),
   (tokenKey "bob", ⟨"bob", 7⟩)]

end TokenChaincode

namespace Exchange

/-! ## Basic facts about the store -/

theorem lookup_upsert_self (k : GoString) (v : Transaction) (l : List (GoString × Transaction)) :
    lookup k (upsert k v l) = some v := by
  induction l with
  | nil => simp [upsert, lookup]
  | cons p rest ih =>
    obtain ⟨k', v'⟩ := p
    by_cases h : k' = k
    · simp [upsert, lookup, h]
    · simp [upsert, lookup, h, ih]

theorem lookup_upsert_ne (k k' : GoString) (v : Transaction) (l : List (GoString × Transaction))
    (h : k' ≠ k) : lookup k' (upsert k v l) = lookup k' l := by
  have h' : ¬ k = k' := fun e => h e.symm
  induction l with
  | nil => simp [upsert, lookup, h']
  | cons p rest ih =>
    obtain ⟨k₀, v₀⟩ := p
    by_cases h₀ : k₀ = k
    · have h₂ : ¬ k₀ = k' := fun e => h (by rw [← e, h₀])
      simp [upsert, lookup, h₀, h', h₂]
    · by_cases h₁ : k₀ = k'
      · subst h₁
        simp [upsert, lookup, h₀]
      · simp [upsert, lookup, h₀, h₁, ih]

theorem lookup_mem (k : GoString) (v : Transaction) (l : List (GoString × Transaction))
    (h : lookup k l = some v) : (k, v) ∈ l := by
  induction l with
  | nil => simp [lookup] at h
  | cons p rest ih =>
    obtain ⟨k', v'⟩ := p
    by_cases hk : k' = k
    · simp [lookup, hk] at h
      simp [hk, h]
    · simp [lookup, hk] at h
      exact List.mem_cons_of_mem _ (ih h)

theorem mem_lookup (k : GoString) (v : Transaction) (l : List (GoString × Transaction))
    (nd : (l.map Prod.fst).Nodup) (h : (k, v) ∈ l) : lookup k l = some v := by
  induction l with
  | nil => simp at h
  | cons p rest ih =>
    obtain ⟨k', v'⟩ := p
    simp only [List.map_cons, List.nodup_cons] at nd
    rcases List.mem_cons.mp h with e | e
    · cases e
      simp [lookup]
    · have hk : k' ≠ k := by
        intro e'
        apply nd.1
        rw [e']
        exact List.mem_map_of_mem Prod.fst e
      simp [lookup, hk, ih nd.2 e]

theorem Store.ext_entries {s t : Store} (h : s.entries = t.entries) : s = t := by
  cases s
  cases t
  cases h
  rfl

theorem Store.get_put_self (s : Store) (k : GoString) (v : Transaction) :
    (s.put k v).get k = some v :=
  lookup_upsert_self k v s.entries

theorem Store.get_put_ne (s : Store) (k k' : GoString) (v : Transaction) (h : k' ≠ k) :
    (s.put k v).get k' = s.get k' :=
  lookup_upsert_ne k k' v s.entries h

theorem Store.get_mem (s : Store) (k : GoString) (v : Transaction) (h : s.get k = some v) :
    (k, v) ∈ s.entries :=
  lookup_mem k v s.entries h

theorem Store.mem_get (s : Store) (k : GoString) (v : Transaction) (h : (k, v) ∈ s.entries) :
    s.get k = some v :=
  mem_lookup k v s.entries s.nodup h

theorem Store.KeyIdConsistent.id_eq {s : Store} (hs : s.KeyIdConsistent) {k : GoString}
    {v : Transaction} (h : s.get k = some v) : (↑v.ID : GoString) = k :=
  hs (k, v) (s.get_mem k v h)

/-! ## Go strings -/

theorem GoString.ofString_injective (a b : String)
    (h : (↑a : GoString) = ↑b) : a = b := by
  have h' : a.data.map GoChar.rune = b.data.map GoChar.rune := h
  have inj : Function.Injective GoChar.rune := fun x y e => by cases e; rfl
  exact String.ext (List.map_injective_iff.mpr inj h')

theorem GoString.toValidUTF8_ofString (s : String) : (↑s : GoString).toValidUTF8 = s := by
  show String.mk ((s.data.map GoChar.rune).map _) = s
  rw [List.map_map]
  have : ((fun x => match x with | GoChar.rune c => c | GoChar.byte _ => replacementChar) ∘ GoChar.rune) = id := by
    funext c
    rfl
  rw [this, List.map_id]

theorem GoString.ofString_toValidUTF8 (g : GoString) (h : g.valid = true) :
    (↑g.toValidUTF8 : GoString) = g := by
  induction g with
  | nil => rfl
  | cons x rest ih =>
    cases x with
    | rune c =>
      have hr : GoString.valid rest = true := by
        simpa [GoString.valid] using h
      have := ih hr
      simp only [GoString.ofString, GoString.toValidUTF8, List.map_cons] at this ⊢
      rw [this]
    | byte b => simp [GoString.valid] at h

theorem GoString.plain_valid (g : GoString) (h : g.plain = true) : g.valid = true := by
  induction g with
  | nil => rfl
  | cons x rest ih =>
    cases x with
    | rune c =>
      simp only [GoString.plain, List.all_cons, Bool.and_eq_true] at h
      simp only [GoString.valid, List.all_cons, Bool.true_and]
      exact ih h.2
    | byte b => simp [GoString.plain] at h

theorem unquote_plain (g : GoString) (h : g.plain = true) :
    unquote .normal none g = some g.toValidUTF8.data := by
  induction g with
  | nil => rfl
  | cons x rest ih =>
    cases x with
    | rune c =>
      simp only [GoString.plain, List.all_cons, Bool.and_eq_true, plainChar, bne_iff_ne, ne_eq,
        decide_eq_true_eq] at h
      obtain ⟨⟨⟨h₁, h₂⟩, h₃⟩, hr⟩ := h
      have h₃' : ¬ c.toNat < 32 := by omega
      simp only [unquote, h₁, h₂, h₃', if_false, ih hr, Option.map_some', pendingOut,
        List.nil_append]
      rfl
    | byte b => simp [GoString.plain] at h

theorem jsonString_plain (g : GoString) (h : g.plain = true) :
    jsonString g = some g.toValidUTF8 := by
  simp [jsonString, unquote_plain g h]

/-! ## The selector -/

/-- The selector when the three spliced strings are bodies of JSON strings: the stored
fields are compared with the decoded values. -/
theorem selector_of_values (id currency exchangeTo : GoString) (rate : Int) (t : Transaction)
    (idValue currencyValue exchangeToValue : String)
    (h₁ : jsonString id = some idValue) (h₂ : jsonString currency = some currencyValue)
    (h₃ : jsonString exchangeTo = some exchangeToValue) :
    selector id currency exchangeTo rate t = true ↔
      t.ID ≠ idValue ∧ t.Currency = currencyValue ∧ t.ExchangeTo = exchangeToValue ∧
        t.Rate = rate ∧ t.IsExecuted = false := by
  simp [selector, h₁, h₂, h₃, and_assoc]

/-- A selected record is pending, whatever the spliced strings are. -/
theorem selector_pending (id currency exchangeTo : GoString) (rate : Int) (t : Transaction)
    (h : selector id currency exchangeTo rate t = true) : t.IsExecuted = false := by
  unfold selector at h
  split at h
  · simp only [Bool.and_eq_true] at h
    simpa using h.2
  · exact Bool.noConfusion h

/-- The selector on plain strings: the stored fields are compared with the arguments. -/
theorem selector_iff (id currency exchangeTo : GoString) (rate : Int) (t : Transaction)
    (h₁ : id.plain = true) (h₂ : currency.plain = true) (h₃ : exchangeTo.plain = true) :
    selector id currency exchangeTo rate t = true ↔
      (↑t.ID : GoString) ≠ id ∧ (↑t.Currency : GoString) = currency ∧
        (↑t.ExchangeTo : GoString) = exchangeTo ∧ t.Rate = rate ∧ t.IsExecuted = false := by
  rw [selector_of_values id currency exchangeTo rate t _ _ _ (jsonString_plain id h₁)
    (jsonString_plain currency h₂) (jsonString_plain exchangeTo h₃)]
  have key : ∀ (x : String) (g : GoString), g.plain = true →
      (x = g.toValidUTF8 ↔ (↑x : GoString) = g) := by
    intro x g hg
    constructor
    · intro e
      rw [e]
      exact GoString.ofString_toValidUTF8 g (GoString.plain_valid g hg)
    · intro e
      rw [← e, GoString.toValidUTF8_ofString]
  rw [key t.Currency currency h₂, key t.ExchangeTo exchangeTo h₃]
  constructor
  · intro h
    exact ⟨fun e => h.1 ((key t.ID id h₁).mpr e), h.2⟩
  · intro h
    exact ⟨fun e => h.1 ((key t.ID id h₁).mp e), h.2⟩

/-- A text stored in a record is plain when it holds no quote, backslash or control
character. -/
theorem GoString.plain_ofString_toValidUTF8 (g : GoString) (h : g.plain = true) :
    (↑g.toValidUTF8 : GoString).plain = true := by
  rw [GoString.ofString_toValidUTF8 g (GoString.plain_valid g h)]
  exact h

/-- What `FindMatchingTransaction` returns, in terms of the selected records. -/
theorem FindMatchingTransaction_eq (f : Faults) (s : Store) (id currency exchangeTo : GoString)
    (rate : Int) :
    FindMatchingTransaction f s id currency exchangeTo rate =
      if f.getQueryResult then .error .StoreFailure
      else .ok ((s.entries.map Prod.snd).filter (selector id currency exchangeTo rate)).head? := by
  unfold FindMatchingTransaction GetQueryResult
  by_cases hq : f.getQueryResult = true
  · simp [hq]
  · simp only [hq, if_false]
    cases (s.entries.map Prod.snd).filter (selector id currency exchangeTo rate) <;> rfl

theorem FindMatchingTransaction_some (f : Faults) (s : Store) (id currency exchangeTo : GoString)
    (rate : Int) (t : Transaction)
    (h : FindMatchingTransaction f s id currency exchangeTo rate = .ok (some t)) :
    (∃ k, (k, t) ∈ s.entries) ∧ selector id currency exchangeTo rate t = true := by
  rw [FindMatchingTransaction_eq] at h
  by_cases hq : f.getQueryResult = true
  · simp [hq] at h
  · have hq' : f.getQueryResult = false := by simpa using hq
    simp only [hq', Bool.false_eq_true, if_false, Except.ok.injEq] at h
    have hm := List.mem_of_mem_head? h
    rw [List.mem_filter] at hm
    refine ⟨?_, hm.2⟩
    obtain ⟨p, hp, rfl⟩ := List.mem_map.mp hm.1
    exact ⟨p.1, hp⟩

/-- In a key/id consistent store the record selected as match is bound to its own `ID`. -/
theorem FindMatchingTransaction_bound (f : Faults) (s : Store) (id currency exchangeTo : GoString)
    (rate : Int) (m : Transaction) (hs : s.KeyIdConsistent)
    (h : FindMatchingTransaction f s id currency exchangeTo rate = .ok (some m)) :
    s.get m.ID = some m := by
  obtain ⟨⟨k, hk⟩, _⟩ := FindMatchingTransaction_some f s id _ _ _ m h
  have hg := s.mem_get k m hk
  rw [hs.id_eq hg]
  exact hg

/-- The outcomes of `ExecuteTransaction`, branch by branch. -/
theorem ExecuteTransaction_cases (f : Faults) (s : Store) (id : GoString) :
    (f.getState id = true ∧ ExecuteTransaction f s id = ⟨s, some .StoreFailure⟩) ∨
    (f.getState id = false ∧ s.get id = none ∧
      ExecuteTransaction f s id = ⟨s, some .NotFound⟩) ∨
    (∃ tx, f.getState id = false ∧ s.get id = some tx ∧ tx.IsExecuted = true ∧
      ExecuteTransaction f s id = ⟨s, some .AlreadySettled⟩) ∨
    (∃ tx, f.getState id = false ∧ s.get id = some tx ∧ tx.IsExecuted = false ∧
      f.getQueryResult = true ∧ ExecuteTransaction f s id = ⟨s, some .StoreFailure⟩) ∨
    (∃ tx, f.getState id = false ∧ s.get id = some tx ∧ tx.IsExecuted = false ∧
      FindMatchingTransaction f s id tx.Currency tx.ExchangeTo tx.Rate = .ok none ∧
      ExecuteTransaction f s id = ⟨s, some .NoMatch⟩) ∨
    (∃ tx m, f.getState id = false ∧ s.get id = some tx ∧ tx.IsExecuted = false ∧
      FindMatchingTransaction f s id tx.Currency tx.ExchangeTo tx.Rate = .ok (some m) ∧
      f.putState tx.ID = true ∧ ExecuteTransaction f s id = ⟨s, some .StoreFailure⟩) ∨
    (∃ tx m, f.getState id = false ∧ s.get id = some tx ∧ tx.IsExecuted = false ∧
      FindMatchingTransaction f s id tx.Currency tx.ExchangeTo tx.Rate = .ok (some m) ∧
      f.putState tx.ID = false ∧ f.putState m.ID = true ∧
      ExecuteTransaction f s id =
        ⟨s.put tx.ID { tx with IsExecuted := true }, some .StoreFailure⟩) ∨
    (∃ tx m, f.getState id = false ∧ s.get id = some tx ∧ tx.IsExecuted = false ∧
      FindMatchingTransaction f s id tx.Currency tx.ExchangeTo tx.Rate = .ok (some m) ∧
      f.putState tx.ID = false ∧ f.putState m.ID = false ∧
      ExecuteTransaction f s id =
        ⟨(s.put tx.ID { tx with IsExecuted := true }).put m.ID { m with IsExecuted := true },
          none⟩) := by
  by_cases hg : f.getState id = true
  · left
    exact ⟨hg, by simp [ExecuteTransaction, ReadTransaction, GetState, hg]⟩
  have hg' : f.getState id = false := by simpa using hg
  right
  cases hget : s.get id with
  | none =>
    left
    exact ⟨hg', rfl, by simp [ExecuteTransaction, ReadTransaction, GetState, hg', hget]⟩
  | some tx =>
    right
    by_cases hx : tx.IsExecuted = true
    · left
      exact ⟨tx, hg', rfl, hx,
        by simp [ExecuteTransaction, ReadTransaction, GetState, hg', hget, hx]⟩
    have hx' : tx.IsExecuted = false := by simpa using hx
    right
    cases hm : FindMatchingTransaction f s id tx.Currency tx.ExchangeTo tx.Rate with
    | error e =>
      left
      have hq : f.getQueryResult = true := by
        rw [FindMatchingTransaction_eq] at hm
        by_cases hq : f.getQueryResult = true
        · exact hq
        · simp [hq] at hm
      have he : e = .StoreFailure := by
        rw [FindMatchingTransaction_eq] at hm
        simp [hq] at hm
        exact hm.symm
      subst he
      exact ⟨tx, hg', rfl, hx', hq,
        by simp [ExecuteTransaction, ReadTransaction, GetState, hg', hget, hx', hm]⟩
    | ok r =>
      right
      cases r with
      | none =>
        left
        exact ⟨tx, hg', rfl, hx', hm,
          by simp [ExecuteTransaction, ReadTransaction, GetState, hg', hget, hx', hm]⟩
      | some m =>
        right
        by_cases hp₁ : f.putState tx.ID = true
        · left
          exact ⟨tx, m, hg', rfl, hx', hm, hp₁,
            by simp [ExecuteTransaction, ReadTransaction, GetState, PutState, hg', hget, hx',
              hm, hp₁]⟩
        have hp₁' : f.putState tx.ID = false := by simpa using hp₁
        right
        by_cases hp₂ : f.putState m.ID = true
        · left
          exact ⟨tx, m, hg', rfl, hx', hm, hp₁', hp₂,
            by simp [ExecuteTransaction, ReadTransaction, GetState, PutState, hg', hget, hx',
              hm, hp₁', hp₂]⟩
        have hp₂' : f.putState m.ID = false := by simpa using hp₂
        right
        exact ⟨tx, m, hg', rfl, hx', hm, hp₁', hp₂',
          by simp [ExecuteTransaction, ReadTransaction, GetState, PutState, hg', hget, hx',
            hm, hp₁', hp₂']⟩

/-! ## Settlement pairing -/

/-- C1 (refuted as stated): on `sameDirectionBook` the call `ExecuteTransaction("tx1")`
succeeds with `tx2` selected as the match, although `tx2` offers the same currency
(`USD`) for the same currency (`CNY`) as `tx1`, so the mirror relation fails; on
`crookedBook`, where key `k1` holds a record with another `ID`, the call succeeds while
the record stored under `k1` keeps `IsExecuted = false`; and on `escapedBook` the target
`tx1`, whose currency is written with a `\u` escape and is not the text `USD`, is settled
with `tx2`, whose currency is `USD`, because the query text decodes the escape. -/
theorem C1_mirror_relation_fails :
    ((ExecuteTransaction noFaults sameDirectionBook "tx1").err = none ∧
      sameDirectionBook.get "tx1" = some ⟨"tx1", "USD", 100, "CNY", 7, false⟩ ∧
      FindMatchingTransaction noFaults sameDirectionBook "tx1" "USD" "CNY" 7 =
        .ok (some ⟨"tx2", "USD", 700, "CNY", 7, false⟩) ∧
      (ExecuteTransaction noFaults sameDirectionBook "tx1").store.get "tx2" =
        some ⟨"tx2", "USD", 700, "CNY", 7, true⟩ ∧
      ¬ (("USD" : String) = "CNY")) ∧
    ((ExecuteTransaction noFaults crookedBook "k1").err = none ∧
      (ExecuteTransaction noFaults crookedBook "k1").store.get "k1" =
        some ⟨"x", "USD", 100, "CNY", 7, false⟩) ∧
    (escapedBook.KeyIdConsistent ∧
      escapedBook.get "tx1" = some ⟨"tx1", escapedUSD.toValidUTF8, 100, "CNY", 7, false⟩ ∧
      (ExecuteTransaction noFaults escapedBook "tx1").err = none ∧
      FindMatchingTransaction noFaults escapedBook "tx1" escapedUSD "CNY" 7 =
        .ok (some ⟨"tx2", "USD", 700, "CNY", 7, false⟩) ∧
      (ExecuteTransaction noFaults escapedBook "tx1").store.get "tx2" =
        some ⟨"tx2", "USD", 700, "CNY", 7, true⟩ ∧
      escapedUSD.toValidUTF8 ≠ "USD") := by
  decide

/-- C1 (amended): on a ledger where every record is stored under its own `ID`, let the
id, currency and exchange currency of the record under `id` be well-formed UTF-8 without
double quote, backslash or control character.  A successful `ExecuteTransaction(id)` read
a target `A` under `id` and selected a match `B` with `FindMatchingTransaction`;
afterwards both are stored with `IsExecuted = true` and otherwise unchanged, and `B`
offers the same currency for the same currency at the same rate as `A`, under a
different id. -/
theorem ExecuteTransaction_settles_pair (f : Faults) (s : Store) (id : GoString)
    (hs : s.KeyIdConsistent) (hplain : ∀ A, s.get id = some A → A.plain = true)
    (h : (ExecuteTransaction f s id).err = none) :
    ∃ A B, s.get id = some A ∧
      FindMatchingTransaction f s id A.Currency A.ExchangeTo A.Rate = .ok (some B) ∧
      (ExecuteTransaction f s id).store.get id = some { A with IsExecuted := true } ∧
      (ExecuteTransaction f s id).store.get B.ID = some { B with IsExecuted := true } ∧
      A.Currency = B.Currency ∧ A.ExchangeTo = B.ExchangeTo ∧ A.Rate = B.Rate ∧
      A.ID ≠ B.ID := by
  rcases ExecuteTransaction_cases f s id with
    ⟨_, e⟩ | ⟨_, _, e⟩ | ⟨_, _, _, _, e⟩ | ⟨_, _, _, _, _, e⟩ | ⟨_, _, _, _, _, e⟩ |
    ⟨_, _, _, _, _, _, _, e⟩ | ⟨_, _, _, _, _, _, _, _, e⟩ | ⟨A, B, _, hA, _, hB, _, _, e⟩
  all_goals try (rw [e] at h; simp at h)
  have hid : (↑A.ID : GoString) = id := hs.id_eq hA
  have hp := hplain A hA
  simp only [Transaction.plain, Bool.and_eq_true] at hp
  have hsel := (FindMatchingTransaction_some f s id _ _ _ B hB).2
  rw [selector_iff _ _ _ _ _ (hid ▸ hp.1.1) hp.1.2 hp.2] at hsel
  obtain ⟨hne, hc, he, hr, _⟩ := hsel
  refine ⟨A, B, hA, hB, ?_, ?_, (GoString.ofString_injective _ _ hc).symm,
    (GoString.ofString_injective _ _ he).symm, hr.symm, ?_⟩
  · rw [e, hid]
    show ((s.put id _).put (↑B.ID) _).get id = _
    rw [Store.get_put_ne _ _ _ _ (fun e' => hne e'.symm), Store.get_put_self]
  · rw [e]
    exact Store.get_put_self _ _ _
  · intro e'
    apply hne
    rw [← e', hid]

/-- Witness for `ExecuteTransaction_settles_pair` on `sameDirectionBook`. -/
theorem ExecuteTransaction_settles_pair_witness :
    sameDirectionBook.KeyIdConsistent ∧
    (∀ A, sameDirectionBook.get "tx1" = some A → A.plain = true) ∧
    (ExecuteTransaction noFaults sameDirectionBook "tx1").err = none ∧
    ∃ A B, sameDirectionBook.get "tx1" = some A ∧
      FindMatchingTransaction noFaults sameDirectionBook "tx1" A.Currency A.ExchangeTo A.Rate
        = .ok (some B) ∧
      (ExecuteTransaction noFaults sameDirectionBook "tx1").store.get "tx1" =
        some { A with IsExecuted := true } ∧
      (ExecuteTransaction noFaults sameDirectionBook "tx1").store.get B.ID =
        some { B with IsExecuted := true } ∧
      A.Currency = B.Currency ∧ A.ExchangeTo = B.ExchangeTo ∧ A.Rate = B.Rate ∧
      A.ID ≠ B.ID :=
  ⟨by decide, by intro A hA; cases hA; decide, by decide,
    ExecuteTransaction_settles_pair noFaults sameDirectionBook "tx1" (by decide)
      (by intro A hA; cases hA; decide) (by decide)⟩

/-! ## The two-order scenario -/

theorem createBoth_entries (f : Faults) (A B : Transaction) (hid : A.ID ≠ B.ID)
    (hf : f.quietOn [↑A.ID, ↑B.ID]) :
    (createBoth f A B).entries =
      [(↑A.ID, { A with IsExecuted := false }), (↑B.ID, { B with IsExecuted := false })] := by
  have hA := hf.2 (↑A.ID) (by simp)
  have hB := hf.2 (↑B.ID) (by simp)
  have hne : ¬ (↑A.ID : GoString) = ↑B.ID := fun e => hid (GoString.ofString_injective _ _ e)
  simp [createBoth, CreateTransaction, TransactionExists, GetState, PutState, Marshal,
    Store.empty, Store.get, Store.put, lookup, upsert, hA.1, hA.2, hB.1, hB.2, hne,
    GoString.toValidUTF8_ofString]

/-- C2 (refuted as stated): after creating `tx1 = (USD, 100, CNY, 7)` and its mirror
`tx2 = (CNY, 700, USD, 7)` on the empty ledger, `ExecuteTransaction("tx1")` fails with
`NoMatch`, writes nothing and leaves both orders pending; `ExecuteTransaction("tx2")`
then fails with `NoMatch` as well, not with `AlreadySettled`. -/
theorem C2_mirrored_orders_do_not_settle :
    (ExecuteTransaction noFaults
        (createTwo ⟨"tx1", "USD", 100, "CNY", 7, false⟩ ⟨"tx2", "CNY", 700, "USD", 7, false⟩)
        "tx1").err = some .NoMatch ∧
    (ExecuteTransaction noFaults
        (createTwo ⟨"tx1", "USD", 100, "CNY", 7, false⟩ ⟨"tx2", "CNY", 700, "USD", 7, false⟩)
        "tx1").store.entries =
      ([("tx1", ⟨"tx1", "USD", 100, "CNY", 7, false⟩),
        ("tx2", ⟨"tx2", "CNY", 700, "USD", 7, false⟩)] : List (GoString × Transaction)) ∧
    (ExecuteTransaction noFaults
        (ExecuteTransaction noFaults
          (createTwo ⟨"tx1", "USD", 100, "CNY", 7, false⟩ ⟨"tx2", "CNY", 700, "USD", 7, false⟩)
          "tx1").store
        "tx2").err = some .NoMatch := by
  decide

/-- C2 (amended): on the empty ledger create orders `A` and `B` with distinct ids and
equal rates, their strings being well-formed UTF-8 and the id, currency and exchange
currency of `A` holding no double quote, backslash or control character, on a ledger
that answers the query and rejects neither reads nor writes of the two ids.  If `B` offers the same currency
for the same currency as `A`, then `ExecuteTransaction(A.ID)` succeeds and leaves both
stored with `IsExecuted = true`, and a subsequent `ExecuteTransaction(B.ID)` fails with
`AlreadySettled`, writing nothing.  If instead `B` is the mirror of `A` (and the two
currencies differ), then `ExecuteTransaction(A.ID)` fails with `NoMatch` and writes
nothing. -/
theorem created_pair_execution (f : Faults) (A B : Transaction) (hid : A.ID ≠ B.ID)
    (hr : B.Rate = A.Rate) (hA : A.plain = true) (hf : f.quietOn [↑A.ID, ↑B.ID]) :
    (B.Currency = A.Currency → B.ExchangeTo = A.ExchangeTo →
      (ExecuteTransaction f (createBoth f A B) A.ID).err = none ∧
      (ExecuteTransaction f (createBoth f A B) A.ID).store.get A.ID =
        some { A with IsExecuted := true } ∧
      (ExecuteTransaction f (createBoth f A B) A.ID).store.get B.ID =
        some { B with IsExecuted := true } ∧
      ExecuteTransaction f (ExecuteTransaction f (createBoth f A B) A.ID).store B.ID
        = ⟨(ExecuteTransaction f (createBoth f A B) A.ID).store, some .AlreadySettled⟩) ∧
    (B.Currency = A.ExchangeTo → B.ExchangeTo = A.Currency → A.Currency ≠ A.ExchangeTo →
      ExecuteTransaction f (createBoth f A B) A.ID = ⟨createBoth f A B, some .NoMatch⟩) := by
  have hid' : ¬ B.ID = A.ID := fun e => hid e.symm
  have hne : ¬ (↑A.ID : GoString) = ↑B.ID := fun e => hid (GoString.ofString_injective _ _ e)
  have hne' : ¬ (↑B.ID : GoString) = ↑A.ID := fun e => hne e.symm
  have hgA := hf.2 (↑A.ID) (by simp)
  have hgB := hf.2 (↑B.ID) (by simp)
  simp only [Transaction.plain, Bool.and_eq_true] at hA
  have j₁ := jsonString_plain _ hA.1.1
  have j₂ := jsonString_plain _ hA.1.2
  have j₃ := jsonString_plain _ hA.2
  rw [GoString.toValidUTF8_ofString] at j₁ j₂ j₃
  constructor
  · intro hc he
    have hex : (ExecuteTransaction f (createBoth f A B) A.ID).err = none ∧
        (ExecuteTransaction f (createBoth f A B) A.ID).store.entries =
          [(↑A.ID, { A with IsExecuted := true }), (↑B.ID, { B with IsExecuted := true })] := by
      simp [ExecuteTransaction, ReadTransaction, FindMatchingTransaction, GetQueryResult,
        GetState, PutState, Store.get, Store.put, lookup, upsert, selector, j₁, j₂, j₃,
        createBoth_entries f A B hid hf, hf.1, hgA.1, hgA.2, hgB.1, hgB.2, hid, hid', hne,
        hne', hc, he, hr]
    refine ⟨hex.1, ?_, ?_, ?_⟩
    · simp [Store.get, hex.2, lookup]
    · simp [Store.get, hex.2, lookup, hne]
    · have hB : (ExecuteTransaction f (createBoth f A B) A.ID).store.get B.ID =
          some { B with IsExecuted := true } := by
        simp [Store.get, hex.2, lookup, hne]
      generalize (ExecuteTransaction f (createBoth f A B) A.ID).store = s₂ at hB
      simp [ExecuteTransaction, ReadTransaction, GetState, hgB.1, hB]
  · intro hc he hcur
    have hcur' : ¬ A.ExchangeTo = A.Currency := fun e => hcur e.symm
    simp [ExecuteTransaction, ReadTransaction, FindMatchingTransaction, GetQueryResult,
      GetState, Store.get, lookup, selector, j₁, j₂, j₃,
      createBoth_entries f A B hid hf, hf.1, hgA.1, hid, hid', hne, hne', hc, he, hr, hcur,
      hcur']

/-- Witness for `created_pair_execution` on a ledger that rejects no call:
`tx1 = (USD, 100, CNY, 7)` with the same-direction order `tx2 = (USD, 700, CNY, 7)`, and
with its mirror `(CNY, 700, USD, 7)`. -/
theorem created_pair_execution_witness :
    ((ExecuteTransaction noFaults
        (createBoth noFaults ⟨"tx1", "USD", 100, "CNY", 7, false⟩
          ⟨"tx2", "USD", 700, "CNY", 7, false⟩)
        "tx1").err = none ∧
      (ExecuteTransaction noFaults
        (createBoth noFaults ⟨"tx1", "USD", 100, "CNY", 7, false⟩
          ⟨"tx2", "USD", 700, "CNY", 7, false⟩)
        "tx1").store.get "tx1" = some ⟨"tx1", "USD", 100, "CNY", 7, true⟩ ∧
      (ExecuteTransaction noFaults
        (createBoth noFaults ⟨"tx1", "USD", 100, "CNY", 7, false⟩
          ⟨"tx2", "USD", 700, "CNY", 7, false⟩)
        "tx1").store.get "tx2" = some ⟨"tx2", "USD", 700, "CNY", 7, true⟩ ∧
      ExecuteTransaction noFaults
        (ExecuteTransaction noFaults
          (createBoth noFaults ⟨"tx1", "USD", 100, "CNY", 7, false⟩
            ⟨"tx2", "USD", 700, "CNY", 7, false⟩)
          "tx1").store "tx2" =
        ⟨(ExecuteTransaction noFaults
          (createBoth noFaults ⟨"tx1", "USD", 100, "CNY", 7, false⟩
            ⟨"tx2", "USD", 700, "CNY", 7, false⟩)
          "tx1").store, some .AlreadySettled⟩) ∧
    ExecuteTransaction noFaults
        (createBoth noFaults ⟨"tx1", "USD", 100, "CNY", 7, false⟩
          ⟨"tx2", "CNY", 700, "USD", 7, false⟩)
        "tx1" =
      ⟨createBoth noFaults ⟨"tx1", "USD", 100, "CNY", 7, false⟩
        ⟨"tx2", "CNY", 700, "USD", 7, false⟩, some .NoMatch⟩ :=
  ⟨(created_pair_execution noFaults ⟨"tx1", "USD", 100, "CNY", 7, false⟩
      ⟨"tx2", "USD", 700, "CNY", 7, false⟩ (by decide) rfl (by decide)
      ⟨rfl, fun _ _ => ⟨rfl, rfl⟩⟩).1 rfl rfl,
    (created_pair_execution noFaults ⟨"tx1", "USD", 100, "CNY", 7, false⟩
      ⟨"tx2", "CNY", 700, "USD", 7, false⟩ (by decide) rfl (by decide)
      ⟨rfl, fun _ _ => ⟨rfl, rfl⟩⟩).2 rfl rfl (by decide)⟩

/-! ## The matching rule -/

/-- C3 (refuted as stated): queried for a target offering `USD` for `CNY` at rate 7,
`FindMatchingTransaction` returns `tx2`, whose `Currency` is `USD` (not the target's
desired `CNY`) and whose `ExchangeTo` is `CNY` (not the target's offered `USD`); on a
ledger whose only other order is the mirror `(CNY, 700, USD, 7)` it returns no match;
and queried with the currency `escapedUSD`, written with a `\u` escape, it returns `tx2`,
whose currency is the text `USD` and not the argument. -/
theorem C3_match_is_not_mirrored :
    FindMatchingTransaction noFaults sameDirectionBook "tx1" "USD" "CNY" 7 =
      .ok (some ⟨"tx2", "USD", 700, "CNY", 7, false⟩) ∧
    (⟨"tx2", "USD", 700, "CNY", 7, false⟩ : Transaction).Currency ≠ "CNY" ∧
    (⟨"tx2", "USD", 700, "CNY", 7, false⟩ : Transaction).ExchangeTo ≠ "USD" ∧
    FindMatchingTransaction noFaults mirroredBook "tx1" "USD" "CNY" 7 = .ok none ∧
    FindMatchingTransaction noFaults sameDirectionBook "tx1" escapedUSD "CNY" 7 =
      .ok (some ⟨"tx2", "USD", 700, "CNY", 7, false⟩) ∧
    (↑(⟨"tx2", "USD", 700, "CNY", 7, false⟩ : Transaction).Currency : GoString) ≠
      escapedUSD := by
  decide

/-- C3 (amended): when `excludingId`, `currency` and `exchangeTo` are well-formed UTF-8
without double quote, backslash or control character, any order `t` returned by
`FindMatchingTransaction(excludingId, currency, exchangeTo, rate)` is a record of the
store with `IsExecuted = false`, `t.Currency = currency`, `t.ExchangeTo = exchangeTo`
and `t.Rate = rate`. -/
theorem FindMatchingTransaction_sound (f : Faults) (s : Store)
    (excludingId currency exchangeTo : GoString) (rate : Int) (t : Transaction)
    (h₁ : excludingId.plain = true) (h₂ : currency.plain = true)
    (h₃ : exchangeTo.plain = true)
    (h : FindMatchingTransaction f s excludingId currency exchangeTo rate = .ok (some t)) :
    (∃ k, s.get k = some t) ∧ t.IsExecuted = false ∧ (↑t.Currency : GoString) = currency ∧
      (↑t.ExchangeTo : GoString) = exchangeTo ∧ t.Rate = rate := by
  obtain ⟨⟨k, hk⟩, hsel⟩ := FindMatchingTransaction_some f s _ _ _ _ t h
  rw [selector_iff _ _ _ _ _ h₁ h₂ h₃] at hsel
  exact ⟨⟨k, s.mem_get k t hk⟩, hsel.2.2.2.2, hsel.2.1, hsel.2.2.1, hsel.2.2.2.1⟩

/-- Witness for `FindMatchingTransaction_sound` on `sameDirectionBook`. -/
theorem FindMatchingTransaction_sound_witness :
    FindMatchingTransaction noFaults sameDirectionBook "tx1" "USD" "CNY" 7 =
      .ok (some ⟨"tx2", "USD", 700, "CNY", 7, false⟩) ∧
    ((∃ k, sameDirectionBook.get k = some ⟨"tx2", "USD", 700, "CNY", 7, false⟩) ∧
      (⟨"tx2", "USD", 700, "CNY", 7, false⟩ : Transaction).IsExecuted = false ∧
      (↑(⟨"tx2", "USD", 700, "CNY", 7, false⟩ : Transaction).Currency : GoString) = "USD" ∧
      (↑(⟨"tx2", "USD", 700, "CNY", 7, false⟩ : Transaction).ExchangeTo : GoString) = "CNY" ∧
      (⟨"tx2", "USD", 700, "CNY", 7, false⟩ : Transaction).Rate = 7) :=
  ⟨by decide,
    FindMatchingTransaction_sound noFaults sameDirectionBook "tx1" "USD" "CNY" 7
      ⟨"tx2", "USD", 700, "CNY", 7, false⟩ (by decide) (by decide) (by decide) (by decide)⟩

/-! ## Creation -/

/-- C4: when `id` is already bound in the store (and the ledger answers the read),
`CreateTransaction(id, ...)` fails with `AlreadyExists` and the store is the one before
the call. -/
theorem CreateTransaction_existing (f : Faults) (s : Store) (id currency : GoString)
    (amount : Int) (exchangeTo : GoString) (rate : Int) (t : Transaction)
    (hg : f.getState id = false) (h : s.get id = some t) :
    CreateTransaction f s id currency amount exchangeTo rate = ⟨s, some .AlreadyExists⟩ := by
  simp [CreateTransaction, TransactionExists, GetState, hg, h]

/-- Witness for `CreateTransaction_existing`: creating `tx3` again on `loneBook`. -/
theorem CreateTransaction_existing_witness :
    loneBook.get "tx3" = some ⟨"tx3", "USD", 50, "EUR", 9, false⟩ ∧
    CreateTransaction noFaults loneBook "tx3" "CNY" 1 "USD" 2 =
      ⟨loneBook, some .AlreadyExists⟩ :=
  ⟨by decide,
    CreateTransaction_existing noFaults loneBook "tx3" "CNY" 1 "USD" 2
      ⟨"tx3", "USD", 50, "EUR", 9, false⟩ rfl (by decide)⟩

/-- C5 (refuted as stated): on `loneBook` the unbound id `tx9` is created with a currency
that is the single byte 255, not well-formed UTF-8; the creation succeeds and
`ReadTransaction("tx9")` returns a record whose currency is the character U+FFFD, not
the input. -/
theorem C5_invalid_utf8_is_replaced :
    loneBook.get "tx9" = none ∧
    (CreateTransaction noFaults loneBook "tx9" [GoChar.byte 255] 1 "USD" 2).err = none ∧
    ReadTransaction noFaults
        (CreateTransaction noFaults loneBook "tx9" [GoChar.byte 255] 1 "USD" 2).store "tx9" =
      .ok ⟨"tx9", ⟨[replacementChar]⟩, 1, "USD", 2, false⟩ ∧
    (↑(⟨[replacementChar]⟩ : String) : GoString) ≠ [GoChar.byte 255] := by
  decide

/-- C5 (amended): when `id` is not bound in the store (and the ledger answers the read
and accepts the write), `CreateTransaction(id, currency, amount, exchangeTo, rate)`
succeeds for every `currency`, `amount`, `exchangeTo`, `rate`: nothing is validated.
`ReadTransaction(id)` on the resulting store returns the record that JSON makes of the
input, every byte outside well-formed UTF-8 replaced by U+FFFD; when `id`, `currency`
and `exchangeTo` are well-formed UTF-8 it is `(id, currency, amount, exchangeTo, rate,
false)`, field for field equal to the input. -/
theorem create_read_round_trip (f : Faults) (s : Store) (id currency : GoString)
    (amount : Int) (exchangeTo : GoString) (rate : Int)
    (hg : f.getState id = false) (hp : f.putState id = false) (h : s.get id = none) :
    (CreateTransaction f s id currency amount exchangeTo rate).err = none ∧
    ReadTransaction f (CreateTransaction f s id currency amount exchangeTo rate).store id =
      .ok ⟨id.toValidUTF8, currency.toValidUTF8, amount, exchangeTo.toValidUTF8, rate,
        false⟩ ∧
    (id.valid = true → currency.valid = true → exchangeTo.valid = true →
      ∃ t, ReadTransaction f (CreateTransaction f s id currency amount exchangeTo rate).store
          id = .ok t ∧
        (↑t.ID : GoString) = id ∧ (↑t.Currency : GoString) = currency ∧ t.Amount = amount ∧
        (↑t.ExchangeTo : GoString) = exchangeTo ∧ t.Rate = rate ∧ t.IsExecuted = false) := by
  have e : ReadTransaction f (CreateTransaction f s id currency amount exchangeTo rate).store
      id = .ok ⟨id.toValidUTF8, currency.toValidUTF8, amount, exchangeTo.toValidUTF8, rate,
        false⟩ := by
    simp [CreateTransaction, TransactionExists, ReadTransaction, GetState, PutState, Marshal,
      hg, hp, h, Store.get_put_self]
  refine ⟨?_, e, fun h₁ h₂ h₃ => ⟨_, e, ?_, ?_, rfl, ?_, rfl, rfl⟩⟩
  · simp [CreateTransaction, TransactionExists, GetState, PutState, hg, hp, h]
  · exact GoString.ofString_toValidUTF8 id h₁
  · exact GoString.ofString_toValidUTF8 currency h₂
  · exact GoString.ofString_toValidUTF8 exchangeTo h₃

/-- Witness for `create_read_round_trip`: a negative amount, a zero rate and currency
strings that are no currency codes. -/
theorem create_read_round_trip_witness :
    loneBook.get "tx9" = none ∧
    (CreateTransaction noFaults loneBook "tx9" "" (-5) "not a currency" 0).err = none ∧
    ReadTransaction noFaults
        (CreateTransaction noFaults loneBook "tx9" "" (-5) "not a currency" 0).store "tx9" =
      .ok ⟨"tx9", "", -5, "not a currency", 0, false⟩ ∧
    ∃ t, ReadTransaction noFaults
          (CreateTransaction noFaults loneBook "tx9" "" (-5) "not a currency" 0).store "tx9" =
        .ok t ∧
      (↑t.ID : GoString) = "tx9" ∧ (↑t.Currency : GoString) = "" ∧ t.Amount = -5 ∧
      (↑t.ExchangeTo : GoString) = "not a currency" ∧ t.Rate = 0 ∧ t.IsExecuted = false :=
  ⟨by decide,
    (create_read_round_trip noFaults loneBook "tx9" "" (-5) "not a currency" 0 rfl rfl
      (by decide)).1,
    by decide,
    (create_read_round_trip noFaults loneBook "tx9" "" (-5) "not a currency" 0 rfl rfl
      (by decide)).2.2 (by decide) (by decide) (by decide)⟩

/-! ## Failing executions -/

/-- C6: when the order stored under `id` has `IsExecuted = true` (and the ledger answers
the read), `ExecuteTransaction(id)` fails with `AlreadySettled` and the store is the one
before the call, whatever other orders the store holds. -/
theorem ExecuteTransaction_already_settled (f : Faults) (s : Store) (id : GoString)
    (t : Transaction) (hg : f.getState id = false) (h : s.get id = some t)
    (hx : t.IsExecuted = true) :
    ExecuteTransaction f s id = ⟨s, some .AlreadySettled⟩ := by
  simp [ExecuteTransaction, ReadTransaction, GetState, hg, h, hx]

/-- Witness for `ExecuteTransaction_already_settled`: on `settledBook` the settled `tx1`
has a pending partner candidate `tx2` (which the query would select) and a pending
mirror `tx4`. -/
theorem ExecuteTransaction_already_settled_witness :
    settledBook.get "tx1" = some ⟨"tx1", "USD", 100, "CNY", 7, true⟩ ∧
    FindMatchingTransaction noFaults settledBook "tx1" "USD" "CNY" 7 =
      .ok (some ⟨"tx2", "USD", 700, "CNY", 7, false⟩) ∧
    ExecuteTransaction noFaults settledBook "tx1" = ⟨settledBook, some .AlreadySettled⟩ :=
  ⟨by decide, by decide,
    ExecuteTransaction_already_settled noFaults settledBook "tx1"
      ⟨"tx1", "USD", 100, "CNY", 7, true⟩ rfl (by decide) rfl⟩

/-- C7: when the order `t` stored under `id` is pending and the matching query for it
yields no candidate, `ExecuteTransaction(id)` fails with `NoMatch`, the store is the one
before the call, and the order under `id` is still `t`, with `IsExecuted = false`. -/
theorem ExecuteTransaction_no_match (f : Faults) (s : Store) (id : GoString)
    (t : Transaction) (hg : f.getState id = false) (h : s.get id = some t)
    (hx : t.IsExecuted = false)
    (hm : FindMatchingTransaction f s id t.Currency t.ExchangeTo t.Rate = .ok none) :
    ExecuteTransaction f s id = ⟨s, some .NoMatch⟩ ∧
    (ExecuteTransaction f s id).store.get id = some t ∧ t.IsExecuted = false := by
  have e : ExecuteTransaction f s id = ⟨s, some .NoMatch⟩ := by
    simp [ExecuteTransaction, ReadTransaction, GetState, hg, h, hx, hm]
  exact ⟨e, by rw [e]; exact h, hx⟩

/-- Witness for `ExecuteTransaction_no_match`: the ledger holding only
`tx3 = (USD, 50, EUR, 9)`. -/
theorem ExecuteTransaction_no_match_witness :
    loneBook.get "tx3" = some ⟨"tx3", "USD", 50, "EUR", 9, false⟩ ∧
    FindMatchingTransaction noFaults loneBook "tx3" "USD" "EUR" 9 = .ok none ∧
    ExecuteTransaction noFaults loneBook "tx3" = ⟨loneBook, some .NoMatch⟩ ∧
    (ExecuteTransaction noFaults loneBook "tx3").store.get "tx3" =
      some ⟨"tx3", "USD", 50, "EUR", 9, false⟩ ∧
    (⟨"tx3", "USD", 50, "EUR", 9, false⟩ : Transaction).IsExecuted = false :=
  ⟨by decide, by decide,
    ExecuteTransaction_no_match noFaults loneBook "tx3" ⟨"tx3", "USD", 50, "EUR", 9, false⟩
      rfl (by decide) rfl (by decide)⟩

/-! ## No self-match -/

/-- C8 (code at the failing input): the ledger `selfMatchBook` holds the single pending
order whose id is written `tx`, backslash, `u0031`, stored under its own id.  Spliced
unescaped into the query, that id reads `tx1`, so the `$ne` clause excludes the id `tx1`
and not the order itself: `FindMatchingTransaction`, called with this id as the
excluding id, returns the very order, and `ExecuteTransaction` of this id succeeds and
settles the order with itself. -/
theorem C8_escaped_id_matches_itself :
    selfMatchBook.entries =
      [(escapedTx1, ⟨escapedTx1.toValidUTF8, "USD", 100, "CNY", 7, false⟩)] ∧
    selfMatchBook.KeyIdConsistent ∧
    jsonString escapedTx1 = some "tx1" ∧
    FindMatchingTransaction noFaults selfMatchBook escapedTx1 "USD" "CNY" 7 =
      .ok (some ⟨escapedTx1.toValidUTF8, "USD", 100, "CNY", 7, false⟩) ∧
    (↑(⟨escapedTx1.toValidUTF8, "USD", 100, "CNY", 7, false⟩ : Transaction).ID : GoString) =
      escapedTx1 ∧
    (ExecuteTransaction noFaults selfMatchBook escapedTx1).err = none ∧
    (ExecuteTransaction noFaults selfMatchBook escapedTx1).store.entries =
      [(escapedTx1, ⟨escapedTx1.toValidUTF8, "USD", 100, "CNY", 7, true⟩)] := by
  decide

/-- On a plain excluding id the exclusion works: the record returned has another id. -/
theorem FindMatchingTransaction_excludes (f : Faults) (s : Store)
    (id currency exchangeTo : GoString) (rate : Int) (t : Transaction)
    (h₁ : id.plain = true) (h₂ : currency.plain = true) (h₃ : exchangeTo.plain = true)
    (h : FindMatchingTransaction f s id currency exchangeTo rate = .ok (some t)) :
    (↑t.ID : GoString) ≠ id := by
  have hsel := (FindMatchingTransaction_some f s _ _ _ _ t h).2
  rw [selector_iff _ _ _ _ _ h₁ h₂ h₃] at hsel
  exact hsel.1

/-! ## Monotonicity of the settlement flag -/

/-- The store left by `CreateTransaction`: untouched, or extended at the fresh key `id`. -/
theorem CreateTransaction_store (f : Faults) (s : Store) (id currency : GoString)
    (amount : Int) (exchangeTo : GoString) (rate : Int) :
    (CreateTransaction f s id currency amount exchangeTo rate).store = s ∨
    (s.get id = none ∧
      (CreateTransaction f s id currency amount exchangeTo rate).store =
        s.put id (Marshal ⟨id, currency, amount, exchangeTo, rate, false⟩)) := by
  by_cases hg : f.getState id = true
  · left
    simp [CreateTransaction, TransactionExists, GetState, hg]
  have hg' : f.getState id = false := by simpa using hg
  cases hget : s.get id with
  | some t =>
    left
    simp [CreateTransaction, TransactionExists, GetState, hg', hget]
  | none =>
    by_cases hp : f.putState id = true
    · left
      simp [CreateTransaction, TransactionExists, GetState, PutState, hg', hget, hp]
    · have hp' : f.putState id = false := by simpa using hp
      right
      simp [CreateTransaction, TransactionExists, GetState, PutState, hg', hget, hp']

/-- The store left by `ExecuteTransaction`: untouched, or with the settled target
written, or with the settled target and then the settled match written. -/
theorem ExecuteTransaction_store (f : Faults) (s : Store) (id : GoString) :
    (ExecuteTransaction f s id).store = s ∨
    ∃ tx m, s.get id = some tx ∧ tx.IsExecuted = false ∧
      FindMatchingTransaction f s id tx.Currency tx.ExchangeTo tx.Rate = .ok (some m) ∧
      ((ExecuteTransaction f s id).store = s.put tx.ID { tx with IsExecuted := true } ∨
       (ExecuteTransaction f s id).store =
        (s.put tx.ID { tx with IsExecuted := true }).put m.ID { m with IsExecuted := true }) := by
  rcases ExecuteTransaction_cases f s id with
    ⟨_, e⟩ | ⟨_, _, e⟩ | ⟨_, _, _, _, e⟩ | ⟨_, _, _, _, _, e⟩ | ⟨_, _, _, _, _, e⟩ |
    ⟨_, _, _, _, _, _, _, e⟩ | ⟨tx, m, _, htx, hx, hm, _, _, e⟩ |
    ⟨tx, m, _, htx, hx, hm, _, _, e⟩
  · exact Or.inl (by rw [e])
  · exact Or.inl (by rw [e])
  · exact Or.inl (by rw [e])
  · exact Or.inl (by rw [e])
  · exact Or.inl (by rw [e])
  · exact Or.inl (by rw [e])
  · exact Or.inr ⟨tx, m, htx, hx, hm, Or.inl (by rw [e])⟩
  · exact Or.inr ⟨tx, m, htx, hx, hm, Or.inr (by rw [e])⟩

/-- Writing a settled record keeps every settled key settled. -/
theorem Store.put_keeps_settled (s : Store) (k₀ : GoString) (v : Transaction)
    (hv : v.IsExecuted = true) (k : GoString)
    (h : ∃ t, s.get k = some t ∧ t.IsExecuted = true) :
    ∃ t, (s.put k₀ v).get k = some t ∧ t.IsExecuted = true := by
  by_cases hk : k = k₀
  · subst hk
    exact ⟨v, s.get_put_self k v, hv⟩
  · rw [s.get_put_ne k₀ k v hk]
    exact h

/-- C9: a key bound to a settled order before `CreateTransaction` or
`ExecuteTransaction` (successful or failing) is bound to a settled order after it:
`CreateTransaction` leaves the record as it is, and so does `ExecuteTransaction` when
the records are stored under their own ids.  `UpdateTransaction(id, false)` does reset
the flag of the order under `id`. -/
theorem settled_stays_settled (f : Faults) (s : Store) :
    (∀ id currency amount exchangeTo rate k t, s.get k = some t → t.IsExecuted = true →
      (CreateTransaction f s id currency amount exchangeTo rate).store.get k = some t) ∧
    (∀ id k t, s.get k = some t → t.IsExecuted = true →
      ∃ t₁, (ExecuteTransaction f s id).store.get k = some t₁ ∧ t₁.IsExecuted = true ∧
        (s.KeyIdConsistent → t₁ = t)) ∧
    (∀ id t, f.getState id = false → f.putState id = false → s.get id = some t →
      (UpdateTransaction f s id false).err = none ∧
      (UpdateTransaction f s id false).store.get id = some { t with IsExecuted := false }) := by
  refine ⟨?_, ?_, ?_⟩
  · intro id currency amount exchangeTo rate k t hk _
    rcases CreateTransaction_store f s id currency amount exchangeTo rate with e | ⟨hn, e⟩
    · rw [e]
      exact hk
    · have hne : k ≠ id := by
        intro e'
        rw [e', hn] at hk
        exact Option.noConfusion hk
      rw [e, s.get_put_ne id k _ hne]
      exact hk
  · intro id k t hk hx
    rcases ExecuteTransaction_store f s id with e | ⟨tx, m, htx, hxt, hm, e⟩
    · rw [e]
      exact ⟨t, hk, hx, fun _ => rfl⟩
    · have hflag : ∃ t₁, (ExecuteTransaction f s id).store.get k = some t₁ ∧
          t₁.IsExecuted = true := by
        rcases e with e | e
        · rw [e]
          exact Store.put_keeps_settled s _ _ rfl k ⟨t, hk, hx⟩
        · rw [e]
          exact Store.put_keeps_settled _ _ _ rfl k
            (Store.put_keeps_settled s _ _ rfl k ⟨t, hk, hx⟩)
      obtain ⟨t₁, ht₁, hx₁⟩ := hflag
      refine ⟨t₁, ht₁, hx₁, fun hs => ?_⟩
      have hk₁ : k ≠ tx.ID := by
        intro e'
        rw [hs.id_eq htx] at e'
        rw [e', htx] at hk
        cases hk
        rw [hx] at hxt
        exact Bool.noConfusion hxt
      obtain ⟨⟨km, hkm⟩, hsel⟩ := FindMatchingTransaction_some f s id _ _ _ m hm
      have hpend := selector_pending _ _ _ _ _ hsel
      have hgm : s.get m.ID = some m := by
        have := s.mem_get km m hkm
        rw [← hs.id_eq this] at this
        exact this
      have hk₂ : k ≠ m.ID := by
        intro e'
        rw [e', hgm] at hk
        cases hk
        rw [hx] at hpend
        exact Bool.noConfusion hpend
      rcases e with e | e
      · rw [e, s.get_put_ne _ k _ hk₁, hk] at ht₁
        cases ht₁
        rfl
      · rw [e, Store.get_put_ne _ _ k _ hk₂, s.get_put_ne _ k _ hk₁, hk] at ht₁
        cases ht₁
        rfl
  · intro id t hg hp ht
    simp [UpdateTransaction, ReadTransaction, GetState, PutState, hg, hp, ht,
      Store.get_put_self]

/-- Witness for `settled_stays_settled` on `settledBook`, where `tx1` is settled: a
successful creation of `tx6`, a successful execution of `tx2` (matched with `tx5`), and
the reset of `tx1` by `UpdateTransaction`. -/
theorem settled_stays_settled_witness :
    settledBook.get "tx1" = some ⟨"tx1", "USD", 100, "CNY", 7, true⟩ ∧
    settledBook.KeyIdConsistent ∧
    (CreateTransaction noFaults settledBook "tx6" "EUR" 1 "USD" 2).err = none ∧
    (ExecuteTransaction noFaults settledBook "tx2").err = none ∧
    (CreateTransaction noFaults settledBook "tx6" "EUR" 1 "USD" 2).store.get "tx1" =
      some ⟨"tx1", "USD", 100, "CNY", 7, true⟩ ∧
    (∃ t₁, (ExecuteTransaction noFaults settledBook "tx2").store.get "tx1" = some t₁ ∧
      t₁.IsExecuted = true ∧
      (settledBook.KeyIdConsistent → t₁ = ⟨"tx1", "USD", 100, "CNY", 7, true⟩)) ∧
    (UpdateTransaction noFaults settledBook "tx1" false).err = none ∧
    (UpdateTransaction noFaults settledBook "tx1" false).store.get "tx1" =
      some ⟨"tx1", "USD", 100, "CNY", 7, false⟩ :=
  ⟨by decide, by decide, by decide, by decide,
    (settled_stays_settled noFaults settledBook).1 "tx6" "EUR" 1 "USD" 2 "tx1"
      ⟨"tx1", "USD", 100, "CNY", 7, true⟩ (by decide) rfl,
    (settled_stays_settled noFaults settledBook).2.1 "tx2" "tx1"
      ⟨"tx1", "USD", 100, "CNY", 7, true⟩ (by decide) rfl,
    (settled_stays_settled noFaults settledBook).2.2 "tx1"
      ⟨"tx1", "USD", 100, "CNY", 7, true⟩ rfl rfl (by decide)⟩

/-! ## Atomicity of execution -/

/-- Overwriting a bound key leaves the list of keys as it is. -/
theorem Store.put_keys_of_get (s : Store) (k : GoString) (v t : Transaction)
    (h : s.get k = some t) :
    (s.put k v).entries.map Prod.fst = s.entries.map Prod.fst := by
  have hk : k ∈ s.entries.map Prod.fst :=
    List.mem_map_of_mem Prod.fst (s.get_mem k t h)
  show (upsert k v s.entries).map Prod.fst = _
  rw [upsert_keys, if_pos hk]

/-- C11: when `id` is bound to `t` (and the ledger answers the read and accepts the
write), `UpdateTransaction(id, v)` succeeds for either boolean `v`; afterwards `id` is
bound to `t` with `IsExecuted = v` and all other fields as before, every other key is
bound as before, and the keys of the store are the same.  Nothing is asked of any other
order. -/
theorem UpdateTransaction_effect (f : Faults) (s : Store) (id : GoString) (v : Bool)
    (t : Transaction) (hg : f.getState id = false) (hp : f.putState id = false)
    (h : s.get id = some t) :
    (UpdateTransaction f s id v).err = none ∧
    (UpdateTransaction f s id v).store.get id =
      some ⟨t.ID, t.Currency, t.Amount, t.ExchangeTo, t.Rate, v⟩ ∧
    (∀ k, k ≠ id → (UpdateTransaction f s id v).store.get k = s.get k) ∧
    (UpdateTransaction f s id v).store.entries.map Prod.fst = s.entries.map Prod.fst := by
  have e : UpdateTransaction f s id v = ⟨s.put id { t with IsExecuted := v }, none⟩ := by
    simp [UpdateTransaction, ReadTransaction, GetState, PutState, hg, hp, h]
  rw [e]
  exact ⟨rfl, s.get_put_self id _, fun k hk => s.get_put_ne id k _ hk,
    s.put_keys_of_get id _ t h⟩

/-- Witness for `UpdateTransaction_effect`: on `loneBook`, whose only order is the pending
`tx3`, `UpdateTransaction("tx3", true)` leaves a settled order and no other order at all. -/
theorem UpdateTransaction_effect_witness :
    loneBook.get "tx3" = some ⟨"tx3", "USD", 50, "EUR", 9, false⟩ ∧
    (UpdateTransaction noFaults loneBook "tx3" true).store.entries =
      ([("tx3", ⟨"tx3", "USD", 50, "EUR", 9, true⟩)] : List (GoString × Transaction)) ∧
    ((UpdateTransaction noFaults loneBook "tx3" true).err = none ∧
      (UpdateTransaction noFaults loneBook "tx3" true).store.get "tx3" =
        some ⟨"tx3", "USD", 50, "EUR", 9, true⟩ ∧
      (∀ k : GoString, k ≠ "tx3" →
        (UpdateTransaction noFaults loneBook "tx3" true).store.get k = loneBook.get k) ∧
      (UpdateTransaction noFaults loneBook "tx3" true).store.entries.map Prod.fst =
        loneBook.entries.map Prod.fst) :=
  ⟨by decide, by decide,
    UpdateTransaction_effect noFaults loneBook "tx3" true
      ⟨"tx3", "USD", 50, "EUR", 9, false⟩ rfl rfl (by decide)⟩

/-! ## Absent ids -/

/-- C12: when `id` is not bound in the store (and the ledger answers the read),
`ReadTransaction(id)` fails with `NotFound`, `ExecuteTransaction(id)` and
`UpdateTransaction(id, v)` fail with `NotFound` and leave the store as it is, and
`TransactionExists(id)` returns `false`.  For `ExecuteTransaction` this holds whatever the
other records are and even when the query or the writes would be rejected: the check
comes first. -/
theorem absent_id_not_found (f : Faults) (s : Store) (id : GoString) (v : Bool)
    (hg : f.getState id = false) (h : s.get id = none) :
    ReadTransaction f s id = .error .NotFound ∧
    ExecuteTransaction f s id = ⟨s, some .NotFound⟩ ∧
    UpdateTransaction f s id v = ⟨s, some .NotFound⟩ ∧
    TransactionExists f s id = .ok false := by
  refine ⟨?_, ?_, ?_, ?_⟩
  · simp [ReadTransaction, GetState, hg, h]
  · simp [ExecuteTransaction, ReadTransaction, GetState, hg, h]
  · simp [UpdateTransaction, ReadTransaction, GetState, hg, h]
  · simp [TransactionExists, GetState, hg, h]

/-- Witness for `absent_id_not_found`: the unbound id `tx9` on `settledBook`, with a ledger
that would reject the query and every write. -/
theorem absent_id_not_found_witness :
    settledBook.get "tx9" = none ∧
    (ReadTransaction ⟨fun _ => false, fun _ => true, true⟩ settledBook "tx9" =
        .error .NotFound ∧
      ExecuteTransaction ⟨fun _ => false, fun _ => true, true⟩ settledBook "tx9" =
        ⟨settledBook, some .NotFound⟩ ∧
      UpdateTransaction ⟨fun _ => false, fun _ => true, true⟩ settledBook "tx9" true =
        ⟨settledBook, some .NotFound⟩ ∧
      TransactionExists ⟨fun _ => false, fun _ => true, true⟩ settledBook "tx9" =
        .ok false) :=
  ⟨by decide,
    absent_id_not_found ⟨fun _ => false, fun _ => true, true⟩ settledBook "tx9" true rfl
      (by decide)⟩

/-! ## Tie-break -/

/-- C13: when the ledger answers the query, `FindMatchingTransaction` returns the head
of the sequence of store records selected by the filter, taken in iteration order: a
returned record satisfies the filter and no record before it in the store does, and
`none` is returned, without error, exactly when no record of the store satisfies the
filter.  (The function only reads: its embedding returns no store.) -/
theorem FindMatchingTransaction_first (f : Faults) (s : Store)
    (id currency exchangeTo : GoString) (rate : Int) (hq : f.getQueryResult = false) :
    FindMatchingTransaction f s id currency exchangeTo rate =
      .ok ((s.entries.map Prod.snd).filter (selector id currency exchangeTo rate)).head? ∧
    (∀ t, FindMatchingTransaction f s id currency exchangeTo rate = .ok (some t) →
      selector id currency exchangeTo rate t = true ∧
      ∃ before after, s.entries.map Prod.snd = before ++ t :: after ∧
        ∀ x ∈ before, selector id currency exchangeTo rate x = false) ∧
    (FindMatchingTransaction f s id currency exchangeTo rate = .ok none ↔
      ∀ x ∈ s.entries.map Prod.snd, selector id currency exchangeTo rate x = false) := by
  have e := FindMatchingTransaction_eq f s id currency exchangeTo rate
  rw [hq] at e
  simp only [Bool.false_eq_true, if_false] at e
  rw [e, List.filter_head?]
  refine ⟨rfl, ?_, ?_⟩
  · intro t ht
    simp only [Except.ok.injEq] at ht
    obtain ⟨h₁, before, after, h₂, h₃⟩ := List.find?_eq_some.mp ht
    exact ⟨h₁, before, after, h₂, fun x hx => by simpa using h₃ x hx⟩
  · simp only [Except.ok.injEq, List.find?_eq_none]
    constructor
    · intro hh x hx
      simpa using hh x hx
    · intro hh x hx
      simp [hh x hx]

/-- Witness for `FindMatchingTransaction_first`: on `settledBook` both `tx2` and `tx5`
qualify for the target `tx9`; the earlier one, `tx2`, is returned, after the settled
`tx1`, which does not qualify. -/
theorem FindMatchingTransaction_first_witness :
    (settledBook.entries.map Prod.snd).filter (selector "tx9" "USD" "CNY" 7) =
      [⟨"tx2", "USD", 700, "CNY", 7, false⟩, ⟨"tx5", "USD", 30, "CNY", 7, false⟩] ∧
    FindMatchingTransaction noFaults settledBook "tx9" "USD" "CNY" 7 =
      .ok (some ⟨"tx2", "USD", 700, "CNY", 7, false⟩) ∧
    (selector "tx9" "USD" "CNY" 7 ⟨"tx2", "USD", 700, "CNY", 7, false⟩ = true ∧
      ∃ before after, settledBook.entries.map Prod.snd =
          before ++ ⟨"tx2", "USD", 700, "CNY", 7, false⟩ :: after ∧
        ∀ x ∈ before, selector "tx9" "USD" "CNY" 7 x = false) ∧
    FindMatchingTransaction noFaults loneBook "tx3" "USD" "EUR" 9 = .ok none :=
  ⟨by decide, by decide,
    (FindMatchingTransaction_first noFaults settledBook "tx9" "USD" "CNY" 7 rfl).2.1
      ⟨"tx2", "USD", 700, "CNY", 7, false⟩ (by decide),
    (FindMatchingTransaction_first noFaults loneBook "tx3" "USD" "EUR" 9 rfl).2.2.mpr
      (by decide)⟩

/-! ## Key/id consistency -/

theorem mem_upsert (k : GoString) (v : Transaction) (l : List (GoString × Transaction))
    (p : GoString × Transaction) (h : p ∈ upsert k v l) : p = (k, v) ∨ p ∈ l := by
  induction l with
  | nil =>
    simp [upsert] at h
    exact Or.inl h
  | cons q rest ih =>
    obtain ⟨k', v'⟩ := q
    by_cases hk : k' = k
    · simp only [upsert, hk, if_true, List.mem_cons] at h
      rcases h with h | h
      · exact Or.inl h
      · exact Or.inr (List.mem_cons_of_mem _ h)
    · simp only [upsert, hk, if_false, List.mem_cons] at h
      rcases h with h | h
      · exact Or.inr (by rw [h]; exact List.mem_cons_self _ _)
      · rcases ih h with h' | h'
        · exact Or.inl h'
        · exact Or.inr (List.mem_cons_of_mem _ h')

/-- Writing a record under its own `ID` keeps the store key/id consistent. -/
theorem Store.put_consistent (s : Store) (k : GoString) (v : Transaction)
    (hs : s.KeyIdConsistent) (hv : (↑v.ID : GoString) = k) : (s.put k v).KeyIdConsistent := by
  intro p hp
  rcases mem_upsert k v s.entries p hp with h | h
  · rw [h]
    exact hv
  · exact hs p h

theorem CreateTransaction_consistent (f : Faults) (s : Store) (id currency : GoString)
    (amount : Int) (exchangeTo : GoString) (rate : Int) (hs : s.KeyIdConsistent)
    (hid : id.valid = true) :
    (CreateTransaction f s id currency amount exchangeTo rate).store.KeyIdConsistent := by
  rcases CreateTransaction_store f s id currency amount exchangeTo rate with e | ⟨_, e⟩
  · rw [e]
    exact hs
  · rw [e]
    exact s.put_consistent id _ hs (GoString.ofString_toValidUTF8 id hid)

theorem ExecuteTransaction_consistent (f : Faults) (s : Store) (id : GoString)
    (hs : s.KeyIdConsistent) : (ExecuteTransaction f s id).store.KeyIdConsistent := by
  rcases ExecuteTransaction_store f s id with e | ⟨tx, m, _, _, _, e | e⟩
  · rw [e]
    exact hs
  · rw [e]
    exact s.put_consistent _ _ hs rfl
  · rw [e]
    exact Store.put_consistent _ _ _ (s.put_consistent _ _ hs rfl) rfl

theorem UpdateTransaction_consistent (f : Faults) (s : Store) (id : GoString) (v : Bool)
    (hs : s.KeyIdConsistent) : (UpdateTransaction f s id v).store.KeyIdConsistent := by
  by_cases hg : f.getState id = true
  · simpa [UpdateTransaction, ReadTransaction, GetState, hg] using hs
  have hg' : f.getState id = false := by simpa using hg
  cases h : s.get id with
  | none => simpa [UpdateTransaction, ReadTransaction, GetState, hg', h] using hs
  | some t =>
    by_cases hp : f.putState id = true
    · simpa [UpdateTransaction, ReadTransaction, GetState, PutState, hg', h, hp] using hs
    · have hp' : f.putState id = false := by simpa using hp
      have e : (UpdateTransaction f s id v).store = s.put id { t with IsExecuted := v } := by
        simp [UpdateTransaction, ReadTransaction, GetState, PutState, hg', h, hp']
      rw [e]
      have hid : (↑t.ID : GoString) = id := hs.id_eq h
      exact s.put_consistent id _ hs hid

/-- A successful `ExecuteTransaction` on a key/id consistent store leaves the list of
keys as it is. -/
theorem ExecuteTransaction_keys (f : Faults) (s : Store) (id : GoString)
    (hs : s.KeyIdConsistent) (h : (ExecuteTransaction f s id).err = none) :
    (ExecuteTransaction f s id).store.entries.map Prod.fst = s.entries.map Prod.fst := by
  rcases ExecuteTransaction_cases f s id with
    ⟨_, e⟩ | ⟨_, _, e⟩ | ⟨_, _, _, _, e⟩ | ⟨_, _, _, _, _, e⟩ | ⟨_, _, _, _, _, e⟩ |
    ⟨_, _, _, _, _, _, _, e⟩ | ⟨_, _, _, _, _, _, _, _, e⟩ | ⟨tx, m, _, htx, _, hm, _, _, e⟩
  all_goals try (rw [e] at h; simp at h)
  have hm' := FindMatchingTransaction_bound f s id _ _ _ m hs hm
  have hid : (↑tx.ID : GoString) = id := hs.id_eq htx
  have hbound : ∃ t, (s.put (↑tx.ID) { tx with IsExecuted := true }).get (↑m.ID) = some t := by
    by_cases hk : (↑m.ID : GoString) = ↑tx.ID
    · rw [hk]
      exact ⟨_, Store.get_put_self _ _ _⟩
    · rw [Store.get_put_ne _ _ _ _ hk]
      exact ⟨m, hm'⟩
  obtain ⟨t, ht⟩ := hbound
  rw [e]
  show ((s.put (↑tx.ID) _).put (↑m.ID) _).entries.map Prod.fst = _
  rw [Store.put_keys_of_get _ _ _ t ht, hid, s.put_keys_of_get id _ tx htx]

/-- C16 (refuted as stated): on the empty store, which is key/id consistent, the order
with id `brokenId` (`a`, the stray byte 255, `b`) is created on a ledger that rejects no
call.  The record is stored under the key `brokenId`, while its `ID` field, read back
from JSON, holds U+FFFD for the stray byte: the resulting store is not key/id
consistent. -/
theorem C16_creation_breaks_consistency :
    Store.empty.KeyIdConsistent ∧
    (CreateTransaction noFaults Store.empty brokenId "USD" 100 "CNY" 7).err = none ∧
    (CreateTransaction noFaults Store.empty brokenId "USD" 100 "CNY" 7).store.entries =
      [(brokenId, ⟨brokenId.toValidUTF8, "USD", 100, "CNY", 7, false⟩)] ∧
    brokenId.toValidUTF8 = ⟨[Char.ofNat 97, replacementChar, Char.ofNat 98]⟩ ∧
    (↑brokenId.toValidUTF8 : GoString) ≠ brokenId ∧
    ¬ (CreateTransaction noFaults Store.empty brokenId "USD" 100 "CNY" 7).store.KeyIdConsistent := by
  decide

/-- C16 (amended): the predicate "every record stored under key `k` has `ID = k`" holds
of the empty store; it is preserved by `CreateTransaction` when the id is well-formed
UTF-8, and by `ExecuteTransaction` and `UpdateTransaction`, whether they succeed or fail.
Under it the match selected by `FindMatchingTransaction` is bound to its own `ID`, so
that the write `PutState(matchingTx.ID, ...)` of a successful `ExecuteTransaction`
overwrites that binding and the keys of the store stay the same. -/
theorem keyIdConsistent_invariant :
    Store.empty.KeyIdConsistent ∧
    (∀ f s id currency amount exchangeTo rate, s.KeyIdConsistent → id.valid = true →
      (CreateTransaction f s id currency amount exchangeTo rate).store.KeyIdConsistent) ∧
    (∀ f s id, s.KeyIdConsistent → (ExecuteTransaction f s id).store.KeyIdConsistent) ∧
    (∀ f s id v, s.KeyIdConsistent → (UpdateTransaction f s id v).store.KeyIdConsistent) ∧
    (∀ f s id currency exchangeTo rate m, s.KeyIdConsistent →
      FindMatchingTransaction f s id currency exchangeTo rate = .ok (some m) →
      s.get m.ID = some m) ∧
    (∀ f s id, s.KeyIdConsistent → (ExecuteTransaction f s id).err = none →
      (ExecuteTransaction f s id).store.entries.map Prod.fst = s.entries.map Prod.fst) := by
  refine ⟨?_, ?_, ?_, ?_, ?_, ?_⟩
  · intro p hp
    simp [Store.empty] at hp
  · intro f s id currency amount exchangeTo rate hs hid
    exact CreateTransaction_consistent f s id currency amount exchangeTo rate hs hid
  · intro f s id hs
    exact ExecuteTransaction_consistent f s id hs
  · intro f s id v hs
    exact UpdateTransaction_consistent f s id v hs
  · intro f s id currency exchangeTo rate m hs h
    exact FindMatchingTransaction_bound f s id currency exchangeTo rate m hs h
  · intro f s id hs h
    exact ExecuteTransaction_keys f s id hs h

/-- Witness for `keyIdConsistent_invariant` on `sameDirectionBook`: a creation, a
successful execution (which keeps the keys `tx1`, `tx2`) and an update. -/
theorem keyIdConsistent_invariant_witness :
    sameDirectionBook.KeyIdConsistent ∧
    (CreateTransaction noFaults sameDirectionBook "tx7" "EUR" 3 "USD" 2).store.KeyIdConsistent ∧
    (ExecuteTransaction noFaults sameDirectionBook "tx1").store.KeyIdConsistent ∧
    (UpdateTransaction noFaults sameDirectionBook "tx2" true).store.KeyIdConsistent ∧
    sameDirectionBook.get "tx2" = some ⟨"tx2", "USD", 700, "CNY", 7, false⟩ ∧
    (ExecuteTransaction noFaults sameDirectionBook "tx1").store.entries.map Prod.fst =
      sameDirectionBook.entries.map Prod.fst :=
  ⟨by decide,
    keyIdConsistent_invariant.2.1 noFaults sameDirectionBook "tx7" "EUR" 3 "USD" 2 (by decide)
      (by decide),
    keyIdConsistent_invariant.2.2.1 noFaults sameDirectionBook "tx1" (by decide),
    keyIdConsistent_invariant.2.2.2.1 noFaults sameDirectionBook "tx2" true (by decide),
    keyIdConsistent_invariant.2.2.2.2.1 noFaults sameDirectionBook "tx1" "USD" "CNY" 7
      ⟨"tx2", "USD", 700, "CNY", 7, false⟩ (by decide) (by decide),
    keyIdConsistent_invariant.2.2.2.2.2 noFaults sameDirectionBook "tx1" (by decide)
      (by decide)⟩

/-! ## Successful executions on a key/id consistent store -/

/-- What a successful `ExecuteTransaction(id)` did on a key/id consistent store whose
target holds plain strings. -/
theorem ExecuteTransaction_success (f : Faults) (s : Store) (id : GoString)
    (hs : s.KeyIdConsistent) (hplain : ∀ A, s.get id = some A → A.plain = true)
    (h : (ExecuteTransaction f s id).err = none) :
    ∃ tx m, f.getState id = false ∧ s.get id = some tx ∧ tx.IsExecuted = false ∧
      (↑tx.ID : GoString) = id ∧
      FindMatchingTransaction f s id tx.Currency tx.ExchangeTo tx.Rate = .ok (some m) ∧
      s.get m.ID = some m ∧ m.IsExecuted = false ∧ (↑m.ID : GoString) ≠ id ∧
      (ExecuteTransaction f s id).store =
        (s.put id { tx with IsExecuted := true }).put m.ID { m with IsExecuted := true } := by
  rcases ExecuteTransaction_cases f s id with
    ⟨_, e⟩ | ⟨_, _, e⟩ | ⟨_, _, _, _, e⟩ | ⟨_, _, _, _, _, e⟩ | ⟨_, _, _, _, _, e⟩ |
    ⟨_, _, _, _, _, _, _, e⟩ | ⟨_, _, _, _, _, _, _, _, e⟩ | ⟨tx, m, hg, htx, hx, hm, _, _, e⟩
  all_goals try (rw [e] at h; simp at h)
  have hid : (↑tx.ID : GoString) = id := hs.id_eq htx
  have hp := hplain tx htx
  simp only [Transaction.plain, Bool.and_eq_true] at hp
  have hne := FindMatchingTransaction_excludes f s id _ _ _ m (hid ▸ hp.1.1) hp.1.2 hp.2 hm
  have hpend := selector_pending _ _ _ _ _ (FindMatchingTransaction_some f s id _ _ _ m hm).2
  refine ⟨tx, m, hg, htx, hx, hid, hm, FindMatchingTransaction_bound f s id _ _ _ m hs hm,
    hpend, hne, ?_⟩
  rw [e, hid]

/-- A key bound to a settled order stays bound to a settled order through
`ExecuteTransaction`. -/
theorem ExecuteTransaction_keeps_settled (f : Faults) (s : Store) (id k : GoString)
    (h : ∃ t, s.get k = some t ∧ t.IsExecuted = true) :
    ∃ t, (ExecuteTransaction f s id).store.get k = some t ∧ t.IsExecuted = true := by
  rcases ExecuteTransaction_store f s id with e | ⟨tx, m, _, _, _, e | e⟩
  · rw [e]
    exact h
  · rw [e]
    exact Store.put_keeps_settled s _ _ rfl k h
  · rw [e]
    exact Store.put_keeps_settled _ _ _ rfl k (Store.put_keeps_settled s _ _ rfl k h)

/-- A key bound to a settled order stays bound to a settled order through
`CreateTransaction`. -/
theorem CreateTransaction_keeps_settled (f : Faults) (s : Store) (id currency : GoString)
    (amount : Int) (exchangeTo : GoString) (rate : Int) (k : GoString)
    (h : ∃ t, s.get k = some t ∧ t.IsExecuted = true) :
    ∃ t, (CreateTransaction f s id currency amount exchangeTo rate).store.get k = some t ∧
      t.IsExecuted = true := by
  rcases CreateTransaction_store f s id currency amount exchangeTo rate with e | ⟨hn, e⟩
  · rw [e]
    exact h
  · obtain ⟨t, ht, hx⟩ := h
    have hne : k ≠ id := by
      intro e'
      rw [e', hn] at ht
      exact Option.noConfusion ht
    rw [e, s.get_put_ne id k _ hne]
    exact ⟨t, ht, hx⟩

/-- Writing a record of plain strings keeps the store plain. -/
theorem Store.put_plain (s : Store) (k : GoString) (v : Transaction) (hs : s.Plain)
    (hv : v.plain = true) : (s.put k v).Plain := by
  intro p hp
  rcases mem_upsert k v s.entries p hp with h | h
  · rw [h]
    exact hv
  · exact hs p h

theorem CreateTransaction_plain (f : Faults) (s : Store) (id currency : GoString)
    (amount : Int) (exchangeTo : GoString) (rate : Int) (hs : s.Plain)
    (h₁ : id.plain = true) (h₂ : currency.plain = true) (h₃ : exchangeTo.plain = true) :
    (CreateTransaction f s id currency amount exchangeTo rate).store.Plain := by
  rcases CreateTransaction_store f s id currency amount exchangeTo rate with e | ⟨_, e⟩
  · rw [e]
    exact hs
  · rw [e]
    apply s.put_plain id _ hs
    simp only [Transaction.plain, Marshal, Bool.and_eq_true]
    exact ⟨⟨GoString.plain_ofString_toValidUTF8 id h₁,
      GoString.plain_ofString_toValidUTF8 currency h₂⟩,
      GoString.plain_ofString_toValidUTF8 exchangeTo h₃⟩

theorem ExecuteTransaction_plain (f : Faults) (s : Store) (id : GoString) (hs : s.Plain) :
    (ExecuteTransaction f s id).store.Plain := by
  rcases ExecuteTransaction_store f s id with e | ⟨tx, m, htx, _, hm, e⟩
  · rw [e]
    exact hs
  · have h₁ : tx.plain = true := hs (id, tx) (s.get_mem id tx htx)
    obtain ⟨⟨k, hk⟩, _⟩ := FindMatchingTransaction_some f s id _ _ _ m hm
    have h₂ : m.plain = true := hs (k, m) hk
    rcases e with e | e
    · rw [e]
      exact s.put_plain _ _ hs h₁
    · rw [e]
      exact Store.put_plain _ _ _ (s.put_plain _ _ hs h₁) h₂

/-- A store with the same bindings is key/id consistent and plain as well. -/
theorem Store.invariants_of_same (s s₁ : Store) (h : ∀ k, s₁.get k = s.get k)
    (hs : s.KeyIdConsistent) (hp : s.Plain) : s₁.KeyIdConsistent ∧ s₁.Plain := by
  constructor
  · intro p hp₁
    have := s₁.mem_get p.1 p.2 hp₁
    rw [h] at this
    exact hs.id_eq this
  · intro p hp₁
    have := s₁.mem_get p.1 p.2 hp₁
    rw [h] at this
    exact hp _ (s.get_mem _ _ this)

/-- The reversed store holds the same bindings. -/
theorem Store.get_reverse (s : Store) (k : GoString) : s.reverse.get k = s.get k := by
  cases h : s.get k with
  | some v =>
    apply s.reverse.mem_get
    show (k, v) ∈ s.entries.reverse
    rw [List.mem_reverse]
    exact s.get_mem k v h
  | none =>
    cases h₁ : s.reverse.get k with
    | none => rfl
    | some v =>
      have hm : (k, v) ∈ s.entries.reverse := s.reverse.get_mem k v h₁
      rw [List.mem_reverse] at hm
      rw [s.mem_get k v hm] at h
      exact Option.noConfusion h

/-- The ids recorded for an `ExecuteTransaction(id)` on a key/id consistent store whose
target holds plain strings: none when it fails; when it succeeds the target `id` and the
match's `ID`, two distinct keys bound to pending orders before the call and to settled
orders after it. -/
theorem Call.settles_execute (f : Faults) (s : Store) (id : GoString)
    (hs : s.KeyIdConsistent) (hplain : ∀ A, s.get id = some A → A.plain = true) :
    Call.settles f s (.execute id) = [] ∨
    ∃ tx m, Call.settles f s (.execute id) = [id, ↑m.ID] ∧ (↑m.ID : GoString) ≠ id ∧
      s.get id = some tx ∧ tx.IsExecuted = false ∧
      s.get m.ID = some m ∧ m.IsExecuted = false ∧
      (∃ t, (ExecuteTransaction f s id).store.get id = some t ∧ t.IsExecuted = true) ∧
      (∃ t, (ExecuteTransaction f s id).store.get m.ID = some t ∧ t.IsExecuted = true) := by
  by_cases h : (ExecuteTransaction f s id).err = none
  · right
    obtain ⟨tx, m, hg, htx, hx, _, hm, hgm, hxm, hne, e⟩ :=
      ExecuteTransaction_success f s id hs hplain h
    refine ⟨tx, m, ?_, hne, htx, hx, hgm, hxm, ?_, ?_⟩
    · simp [Call.settles, h, ReadTransaction, GetState, hg, htx, hm]
    · rw [e, Store.get_put_ne _ _ _ _ (fun e' => hne e'.symm), s.get_put_self]
      exact ⟨_, rfl, rfl⟩
    · rw [e, Store.get_put_self]
      exact ⟨_, rfl, rfl⟩
  · left
    simp [Call.settles, h]

/-- Along a sequence of invocations with plain arguments, started on a key/id
consistent store of plain records in which the keys of `past` are bound to settled
orders, no id of `past` takes part in a successful execution and no id takes part in
two, whatever the iteration orders and the rejected calls. -/
theorem history_nodup_from (steps : List ((Store → Store) × Faults × Call))
    (hsteps : ∀ st ∈ steps, (∀ s k, (st.1 s).get k = s.get k) ∧ st.2.2.plain = true) :
    ∀ (s : Store) (past : List GoString), s.KeyIdConsistent → s.Plain →
      (∀ k ∈ past, ∃ t, s.get k = some t ∧ t.IsExecuted = true) → past.Nodup →
      (past ++ history s steps).Nodup := by
  induction steps with
  | nil =>
    intro s past _ _ _ hnd
    simpa [history] using hnd
  | cons st rest ih =>
    obtain ⟨order, f, c⟩ := st
    have hst := hsteps (order, f, c) (List.mem_cons_self _ _)
    have ih' := ih (fun st' h' => hsteps st' (List.mem_cons_of_mem _ h'))
    intro s past hs₀ hp₀ hpast₀ hnd
    have hsame : ∀ k, (order s).get k = s.get k := hst.1 s
    have hcp : c.plain = true := hst.2
    obtain ⟨hs, hp⟩ := Store.invariants_of_same s (order s) hsame hs₀ hp₀
    have hpast : ∀ k ∈ past, ∃ t, (order s).get k = some t ∧ t.IsExecuted = true := by
      intro k hk
      rw [hsame]
      exact hpast₀ k hk
    cases c with
    | create id currency amount exchangeTo rate =>
      simp only [Call.plain, Bool.and_eq_true] at hcp
      have := ih' (CreateTransaction f (order s) id currency amount exchangeTo rate).store past
        (CreateTransaction_consistent f (order s) id currency amount exchangeTo rate hs
          (GoString.plain_valid id hcp.1.1))
        (CreateTransaction_plain f (order s) id currency amount exchangeTo rate hp hcp.1.1
          hcp.1.2 hcp.2)
        (fun k hk => CreateTransaction_keeps_settled f (order s) id currency amount exchangeTo
          rate k (hpast k hk)) hnd
      simpa [history, Call.settles, Call.apply] using this
    | execute id =>
      have hs' := ExecuteTransaction_consistent f (order s) id hs
      have hp' := ExecuteTransaction_plain f (order s) id hp
      have hkeep : ∀ k ∈ past,
          ∃ t, (ExecuteTransaction f (order s) id).store.get k = some t ∧
            t.IsExecuted = true :=
        fun k hk => ExecuteTransaction_keeps_settled f (order s) id k (hpast k hk)
      have hplain : ∀ A, (order s).get id = some A → A.plain = true :=
        fun A hA => hp (id, A) ((order s).get_mem id A hA)
      rcases Call.settles_execute f (order s) id hs hplain with
        e | ⟨tx, m, e, hne, htx, hx, hgm, hxm, h₁, h₂⟩
      · have := ih' (ExecuteTransaction f (order s) id).store past hs' hp' hkeep hnd
        simpa [history, e, Call.apply] using this
      · have hpending : ∀ k t, (order s).get k = some t → t.IsExecuted = false →
            k ∉ past := by
          intro k t hk hxk hmem
          obtain ⟨t', ht', hx'⟩ := hpast k hmem
          rw [hk] at ht'
          cases ht'
          rw [hxk] at hx'
          exact Bool.noConfusion hx'
        have hnd' : (past ++ [id, ↑m.ID]).Nodup := by
          rw [List.nodup_append]
          refine ⟨hnd, ?_, ?_⟩
          · have hne' : ¬ id = ↑m.ID := fun e' => hne e'.symm
            simp [hne']
          · intro a ha hb
            simp only [List.mem_cons, List.mem_singleton, List.not_mem_nil, or_false] at hb
            rcases hb with hb | hb
            · exact hpending id tx htx hx (hb ▸ ha)
            · exact hpending (↑m.ID) m hgm hxm (hb ▸ ha)
        have hkeep' : ∀ k ∈ past ++ [id, ↑m.ID],
            ∃ t, (ExecuteTransaction f (order s) id).store.get k = some t ∧
              t.IsExecuted = true := by
          intro k hk
          rcases List.mem_append.mp hk with hk | hk
          · exact hkeep k hk
          · simp only [List.mem_cons, List.mem_singleton, List.not_mem_nil, or_false] at hk
            rcases hk with hk | hk
            · rw [hk]
              exact h₁
            · rw [hk]
              exact h₂
        have := ih' (ExecuteTransaction f (order s) id).store (past ++ [id, ↑m.ID]) hs' hp'
          hkeep' hnd'
        simpa [history, e, Call.apply, List.append_assoc] using this

/-! ## No double settlement -/

/-- C14 (refuted as stated): `brokenCalls` starts on the empty store and creates the
order `brokenId`, whose id is not well-formed UTF-8, next to `tx2` and `tx3`.  The record
is stored under the key `brokenId` with an `ID` field holding U+FFFD, so the first
execution of `brokenId` (matched with `tx2`) writes the settled target under that other
key and leaves the order under `brokenId` pending; the second execution of `brokenId`
succeeds again (matched with `tx3`): the order takes part in two successful executions.
On the key/id consistent `selfMatchBook` the execution of `escapedTx1` succeeds once, with
the order selected as its own match: the target and the match are not two orders, which
is why the amended statement asks for strings without escapes. -/
theorem C14_order_settled_twice :
    history Store.empty brokenCalls = ([brokenId, "tx2", brokenId, "tx3"] : List GoString) ∧
    ¬ (history Store.empty brokenCalls).Nodup ∧
    (ExecuteTransaction noFaults brokenBook brokenId).err = none ∧
    (ExecuteTransaction noFaults brokenBook brokenId).store.get brokenId =
      some ⟨brokenId.toValidUTF8, "USD", 100, "CNY", 7, false⟩ ∧
    (ExecuteTransaction noFaults brokenBook brokenId).store.get "tx2" =
      some ⟨"tx2", "USD", 700, "CNY", 7, true⟩ ∧
    (ExecuteTransaction noFaults (ExecuteTransaction noFaults brokenBook brokenId).store
      brokenId).err = none ∧
    (ExecuteTransaction noFaults (ExecuteTransaction noFaults brokenBook brokenId).store
      brokenId).store.get "tx3" = some ⟨"tx3", "USD", 5, "CNY", 7, true⟩ ∧
    (selfMatchBook.KeyIdConsistent ∧
      (ExecuteTransaction noFaults selfMatchBook escapedTx1).err = none ∧
      Call.settles noFaults selfMatchBook (.execute escapedTx1) = [escapedTx1, escapedTx1]) := by
  decide

/-- C14 (amended): on a key/id consistent store, when the id, currency and exchange
currency of the target are well-formed UTF-8 without double quote, backslash or control
character, a successful `ExecuteTransaction(id)` found the target under `id` and the
selected match under its own `ID`, another id, both with `IsExecuted = false`
immediately before the call.  And along every sequence of `CreateTransaction` and
`ExecuteTransaction` invocations started on the empty store whose string arguments are
all of that kind, whatever calls the ledger rejects and in whatever order it iterates
over the world state, no id takes part (as target or as match) in two successful
executions. -/
theorem no_double_settlement :
    (∀ f s id, s.KeyIdConsistent → (∀ A, s.get id = some A → A.plain = true) →
      (ExecuteTransaction f s id).err = none →
      ∃ tx m, s.get id = some tx ∧ tx.IsExecuted = false ∧
        FindMatchingTransaction f s id tx.Currency tx.ExchangeTo tx.Rate = .ok (some m) ∧
        s.get m.ID = some m ∧ m.IsExecuted = false ∧ (↑m.ID : GoString) ≠ id) ∧
    (∀ steps : List ((Store → Store) × Faults × Call),
      (∀ st ∈ steps, (∀ s k, (st.1 s).get k = s.get k) ∧ st.2.2.plain = true) →
      (history Store.empty steps).Nodup) := by
  constructor
  · intro f s id hs hplain h
    obtain ⟨tx, m, _, htx, hx, _, hm, hgm, hxm, hne, _⟩ :=
      ExecuteTransaction_success f s id hs hplain h
    exact ⟨tx, m, htx, hx, hm, hgm, hxm, hne⟩
  · intro steps hsteps
    have := history_nodup_from steps hsteps Store.empty []
      (by intro p hp; simp [Store.empty] at hp) (by intro p hp; simp [Store.empty] at hp)
      (by intro k hk; simp at hk) List.nodup_nil
    simpa using this

/-- Witness for `no_double_settlement`: the execution of `tx1` on `sameDirectionBook`,
and the sequence `sampleCalls`, in which two executions out of five succeed and settle
`tx1` with `tx3` and `tx2` with `tx4`, the store being iterated backwards for both. -/
theorem no_double_settlement_witness :
    sameDirectionBook.KeyIdConsistent ∧
    (ExecuteTransaction noFaults sameDirectionBook "tx1").err = none ∧
    (∃ tx m, sameDirectionBook.get "tx1" = some tx ∧ tx.IsExecuted = false ∧
      FindMatchingTransaction noFaults sameDirectionBook "tx1" tx.Currency tx.ExchangeTo
        tx.Rate = .ok (some m) ∧
      sameDirectionBook.get m.ID = some m ∧ m.IsExecuted = false ∧
      (↑m.ID : GoString) ≠ "tx1") ∧
    history Store.empty sampleCalls = (["tx1", "tx3", "tx2", "tx4"] : List GoString) ∧
    (history Store.empty sampleCalls).Nodup :=
  ⟨by decide, by decide,
    no_double_settlement.1 noFaults sameDirectionBook "tx1" (by decide)
      (by intro A hA; cases hA; decide) (by decide),
    by decide,
    no_double_settlement.2 sampleCalls (by
      intro st hst
      simp only [sampleCalls, List.mem_cons, List.mem_singleton, List.not_mem_nil,
        or_false] at hst
      rcases hst with h | h | h | h | h | h | h | h | h <;> subst h <;>
        exact ⟨fun s k => (by first | rfl | exact Store.get_reverse s k), by decide⟩)⟩

/-! ## Frame of a successful execution -/

/-- C15 (code at the failing input): `selfMatchBook` is key/id consistent and holds one
pending order, under the id written `tx`, backslash, `u0031`.  `ExecuteTransaction` of
that id succeeds with the order selected as its own match: the store keeps its single
key, and one record differs from before, not two. -/
theorem C15_self_match_changes_one_record :
    selfMatchBook.KeyIdConsistent ∧
    selfMatchBook.entries.map Prod.fst = [escapedTx1] ∧
    selfMatchBook.get escapedTx1 = some ⟨escapedTx1.toValidUTF8, "USD", 100, "CNY", 7, false⟩ ∧
    (ExecuteTransaction noFaults selfMatchBook escapedTx1).err = none ∧
    Call.settles noFaults selfMatchBook (.execute escapedTx1) = [escapedTx1, escapedTx1] ∧
    (ExecuteTransaction noFaults selfMatchBook escapedTx1).store.entries.map Prod.fst =
      [escapedTx1] ∧
    (ExecuteTransaction noFaults selfMatchBook escapedTx1).store.get escapedTx1 =
      some ⟨escapedTx1.toValidUTF8, "USD", 100, "CNY", 7, true⟩ := by
  decide

/-- On a key/id consistent store whose target holds plain strings, a successful
`ExecuteTransaction(id)` leaves the keys of the store as they are; the target under `id`
and the match under its own `ID`, two different keys, both pending before, are bound
afterwards to the same records with `IsExecuted = true` instead of `false`; every other
key is bound as before. -/
theorem ExecuteTransaction_frame (f : Faults) (s : Store) (id : GoString)
    (hs : s.KeyIdConsistent) (hplain : ∀ A, s.get id = some A → A.plain = true)
    (h : (ExecuteTransaction f s id).err = none) :
    (ExecuteTransaction f s id).store.entries.map Prod.fst = s.entries.map Prod.fst ∧
    ∃ tx m, (↑m.ID : GoString) ≠ id ∧
      s.get id = some tx ∧ tx.IsExecuted = false ∧
      s.get m.ID = some m ∧ m.IsExecuted = false ∧
      (ExecuteTransaction f s id).store.get id =
        some ⟨tx.ID, tx.Currency, tx.Amount, tx.ExchangeTo, tx.Rate, true⟩ ∧
      (ExecuteTransaction f s id).store.get m.ID =
        some ⟨m.ID, m.Currency, m.Amount, m.ExchangeTo, m.Rate, true⟩ ∧
      (ExecuteTransaction f s id).store.get id ≠ s.get id ∧
      (ExecuteTransaction f s id).store.get m.ID ≠ s.get m.ID ∧
      ∀ k, k ≠ id → k ≠ ↑m.ID → (ExecuteTransaction f s id).store.get k = s.get k := by
  obtain ⟨tx, m, _, htx, hx, _, _, hgm, hxm, hne, e⟩ :=
    ExecuteTransaction_success f s id hs hplain h
  have hne' : id ≠ ↑m.ID := fun e' => hne e'.symm
  have h₁ : (ExecuteTransaction f s id).store.get id =
      some ⟨tx.ID, tx.Currency, tx.Amount, tx.ExchangeTo, tx.Rate, true⟩ := by
    rw [e, Store.get_put_ne _ _ _ _ hne', s.get_put_self]
  have h₂ : (ExecuteTransaction f s id).store.get m.ID =
      some ⟨m.ID, m.Currency, m.Amount, m.ExchangeTo, m.Rate, true⟩ := by
    rw [e, Store.get_put_self]
  refine ⟨ExecuteTransaction_keys f s id hs h, tx, m, hne, htx, hx, hgm, hxm, h₁, h₂, ?_, ?_,
    ?_⟩
  · rw [h₁, htx]
    intro e'
    have := congrArg Transaction.IsExecuted (Option.some.inj e')
    rw [hx] at this
    exact Bool.noConfusion this
  · rw [h₂, hgm]
    intro e'
    have := congrArg Transaction.IsExecuted (Option.some.inj e')
    rw [hxm] at this
    exact Bool.noConfusion this
  · intro k hk₁ hk₂
    rw [e, Store.get_put_ne _ _ _ _ hk₂, s.get_put_ne _ _ _ hk₁]

end Exchange

namespace TokenChaincode

/-! ## Basic facts about the token store -/

/-- C17: when the ledger answers the read of the owner's key: if the record stored for
`owner` has `Amount < amount`, then `Burn(owner, amount)` fails with the
insufficient-balance error and the store is the one before the call, so that neither
the owner's record nor the fixed recipient's record is written; and if no record is
stored for `owner`, then `Burn` fails (decoding the missing value) and the store is the
one before the call. -/
theorem Burn_rejects (f : Exchange.Faults) (s : TokenStore) (owner : String) (amount : Int)
    (hg : f.getState (tokenKey owner) = false) :
    (∀ t, s.get (tokenKey owner) = some t → t.Amount < amount →
      Burn f s owner amount = ⟨s, some .InsufficientBalance⟩) ∧
    (s.get (tokenKey owner) = none → Burn f s owner amount = ⟨s, some .UnmarshalFailure⟩) := by
  constructor
  · intro t h hlt
    simp [Burn, GetState, hg, h, hlt]
  · intro h
    simp [Burn, GetState, hg, h]

/-- Witness for `Burn_rejects`: on `sampleTokens` Alice, who holds 30, burns 31; and
Carol, who has no record, burns 0. -/
theorem Burn_rejects_witness :
    sampleTokens.get (tokenKey "alice") = some ⟨"alice", 30⟩ ∧
    sampleTokens.get (tokenKey "carol") = none ∧
    Burn Exchange.noFaults sampleTokens "alice" 31 =
      ⟨sampleTokens, some .InsufficientBalance⟩ ∧
    Burn Exchange.noFaults sampleTokens "carol" 0 = ⟨sampleTokens, some .UnmarshalFailure⟩ :=
  ⟨by decide, by decide,
    (Burn_rejects Exchange.noFaults sampleTokens "alice" 31 rfl).1 ⟨"alice", 30⟩
      (by decide) (by decide),
    (Burn_rejects Exchange.noFaults sampleTokens "carol" 0 rfl).2 (by decide)⟩

/-! ## Effect of a burn -/

end TokenChaincode
